import Mathlib

/-!
# SIGN_MODE_TEXTUAL value-renderer registry

A shallow embedding of `tx/textual/valuerenderer/valuerenderer.go`:
the registry `Textual`, renderer resolution (`GetFieldValueRenderer`,
`GetMessageValueRenderer`), construction (`init`, `NewTextual`) and the
entry point `GetSignBytes`.

Conventions of the embedding.
* A Go result pair `(x, err)` is a Lean pair whose second component is
  `Option error`; `none` is the nil error.
* An interface value that may be nil is an `Option`; `none` is nil.
* A Go map is `Option` of an association list: `none` is the nil map.
* The pointer receiver `r *Textual` is the pair of its address and the
  record it points to.
* A nil byte slice is the empty list.
-/

namespace valuerenderer

/-! ## Schema reflection (package protoreflect) -/

/-- The field kinds of protoreflect.Kind. -/
inductive Kind where
  | BoolKind | EnumKind | Int32Kind | Sint32Kind | Uint32Kind | Int64Kind
  | Sint64Kind | Uint64Kind | Sfixed32Kind | Fixed32Kind | FloatKind
  | Sfixed64Kind | Fixed64Kind | DoubleKind | StringKind | BytesKind
  | MessageKind | GroupKind
deriving DecidableEq, Repr

/-- The name printed for a kind by the verb %s (method String of protoreflect.Kind). -/
def Kind.String : Kind → String
  | .BoolKind => "bool" | .EnumKind => "enum" | .Int32Kind => "int32"
  | .Sint32Kind => "sint32" | .Uint32Kind => "uint32" | .Int64Kind => "int64"
  | .Sint64Kind => "sint64" | .Uint64Kind => "uint64" | .Sfixed32Kind => "sfixed32"
  | .Fixed32Kind => "fixed32" | .FloatKind => "float" | .Sfixed64Kind => "sfixed64"
  | .Fixed64Kind => "fixed64" | .DoubleKind => "double" | .StringKind => "string"
  | .BytesKind => "bytes" | .MessageKind => "message" | .GroupKind => "group"

/-- A message descriptor, as far as resolution reads it: its fully-qualified name. -/
structure MessageDescriptor where
  FullName : String
deriving DecidableEq, Repr

/-- The dynamic value returned by proto.GetExtension for the cosmos_proto scalar
option: an interface holding a string, or a value of some other dynamic type. -/
inductive ExtensionValue where
  | str (s : String)
  | other
deriving DecidableEq, Repr

/-- A field descriptor, as far as resolution reads it: Kind(), the scalar
extension of Options(), Message() and IsMap().  Message() is read only on
message-kind fields, where protoreflect guarantees it is present. -/
structure FieldDescriptor where
  Kind : Kind
  Scalar : ExtensionValue
  Message : MessageDescriptor
  IsMap : Bool
deriving DecidableEq, Repr

/-! ## Errors, screens, collaborators -/

/-- A Go error value, identified by its message. -/
structure error where
  msg : String
deriving DecidableEq, Repr

/-- A byte of output. -/
abbrev Byte := Fin 256

/-- Modelled from the spec: the Screen type is declared in a file that is not
part of the sources at hand; the spec gives it the attributes text, indent
level and expert flag. -/
structure Screen where
  text : String
  indentLevel : Nat
  expert : Bool
deriving DecidableEq, Repr

/-- The standard-library context.Context, threaded through Format untouched. -/
structure Context where
  token : Nat
deriving DecidableEq, Repr

/-- Modelled from the spec: the bank Metadata message is declared outside the
sources at hand; the spec describes the lookup result as a display exponent
and a display name. -/
structure Metadata where
  displayExponent : Nat
  displayName : String
deriving DecidableEq, Repr

/-- CoinMetadataQueryFn: a function value (possibly nil) that queries state for
the metadata of a denom. -/
abbrev CoinMetadataQueryFn := Option (Context → String → Option Metadata × Option error)

/-- The address held by a pointer of type *Textual. -/
structure TextualPtr where
  addr : Nat
deriving DecidableEq, Repr

/-! ## Renderers -/

/-- Modelled from the spec: the renderer constructors (NewStringValueRenderer,
NewBytesValueRenderer, NewIntValueRenderer, NewDecValueRenderer,
NewEnumValueRenderer, NewMessageValueRenderer, NewCoinsValueRenderer,
NewDurationValueRenderer, NewTimestampValueRenderer, NewAnyValueRenderer,
NewTxValueRenderer) are declared in files that are not part of the sources at
hand.  The spec describes a renderer as a variant that is stateless except for
the configuration captured at construction, so each constructor call is
represented by its tag and its arguments. -/
inductive Renderer where
  | NewStringValueRenderer
  | NewBytesValueRenderer
  | NewIntValueRenderer
  | NewDecValueRenderer
  | NewEnumValueRenderer (fd : FieldDescriptor)
  | NewMessageValueRenderer (r : TextualPtr) (md : MessageDescriptor)
  | NewCoinsValueRenderer (q : CoinMetadataQueryFn)
  | NewDurationValueRenderer
  | NewTimestampValueRenderer
  | NewAnyValueRenderer (r : TextualPtr)
  | NewTxValueRenderer (r : TextualPtr)

open Renderer

/-- The interface type ValueRenderer: nil, or a concrete renderer. -/
abbrev ValueRenderer := Option Renderer

/-! ## Go maps keyed by strings -/

/-- A Go map from strings to renderers: nil, or a finite table. -/
abbrev RendererMap := Option (List (String × ValueRenderer))

/-- The two-result index expression m[k]: the stored value and true, or the
zero value and false; reading a nil map finds nothing. -/
def RendererMap.get (m : RendererMap) (k : String) : ValueRenderer × Bool :=
  match m with
  | none => (none, false)
  | some l =>
    match l.lookup k with
    | some v => (v, true)
    | none => (none, false)

/-- The assignment m[k] = v on a table: the entry for k is replaced or added. -/
def tableSet (l : List (String × ValueRenderer)) (k : String) (v : ValueRenderer) :
    List (String × ValueRenderer) :=
  match l with
  | [] => [(k, v)]
  | (k', v') :: rest => if k' == k then (k, v) :: rest else (k', v') :: tableSet rest k v

/-! ## The registry -/

/-- Textual holds the configuration for dispatching to specific value renderers. -/
structure Textual where
  coinMetadataQuerier : CoinMetadataQueryFn
  scalars : RendererMap
  messages : RendererMap

/-- Full name of the descriptor of basev1beta1.Coin. -/
def CoinFullName : String := "cosmos.base.v1beta1.Coin"

/-- Full name of the descriptor of durationpb.Duration. -/
def DurationFullName : String := "google.protobuf.Duration"

/-- Full name of the descriptor of timestamppb.Timestamp. -/
def TimestampFullName : String := "google.protobuf.Timestamp"

/-- Full name of the descriptor of anypb.Any. -/
def AnyFullName : String := "google.protobuf.Any"

/-- Full name of the descriptor of textualv1.TextualData. -/
def TextualDataFullName : String := "cosmos.msg.textual.v1.TextualData"

/-- The method init of *Textual: each map that is nil is created and filled with
its defaults; a map that is already there is left alone. -/
def Textual.init (self : TextualPtr) (r : Textual) : Textual :=
  let r1 : Textual :=
    if r.scalars.isNone then
      let m0 : List (String × ValueRenderer) := []
      let m1 := tableSet m0 "cosmos.Int" (some NewIntValueRenderer)
      let m2 := tableSet m1 "cosmos.Dec" (some NewDecValueRenderer)
      { r with scalars := some m2 }
    else r
  if r1.messages.isNone then
    let m0 : List (String × ValueRenderer) := []
    let m1 := tableSet m0 CoinFullName (some (NewCoinsValueRenderer r1.coinMetadataQuerier))
    let m2 := tableSet m1 DurationFullName (some NewDurationValueRenderer)
    let m3 := tableSet m2 TimestampFullName (some NewTimestampValueRenderer)
    let m4 := tableSet m3 AnyFullName (some (NewAnyValueRenderer self))
    let m5 := tableSet m4 TextualDataFullName (some (NewTxValueRenderer self))
    { r1 with messages := some m5 }
  else r1

/-- NewTextual returns a new Textual which provides value renderers.  The
address of the local variable the registry is built in is the first argument. -/
def NewTextual (self : TextualPtr) (q : CoinMetadataQueryFn) : Textual :=
  let t : Textual := { coinMetadataQuerier := q, scalars := none, messages := none }
  Textual.init self t

/-- GetFieldValueRenderer returns the value renderer for the given FieldDescriptor. -/
def Textual.GetFieldValueRenderer (self : TextualPtr) (r : Textual) (fd : FieldDescriptor) :
    ValueRenderer × Option error :=
  if fd.Kind = Kind.StringKind then
    if fd.Scalar ≠ ExtensionValue.str "" then
      match fd.Scalar with
      | ExtensionValue.other =>
        (none, some ⟨"got extension option " ++ "" ++ " of type string"⟩)
      | ExtensionValue.str scalar =>
        if scalar = "" then
          (none, some ⟨"got extension option " ++ scalar ++ " of type string"⟩)
        else
          let vr := (r.scalars.get scalar).1
          if vr.isSome then (vr, none)
          else (some NewStringValueRenderer, none)
    else (some NewStringValueRenderer, none)
  else if fd.Kind = Kind.BytesKind then
    (some NewBytesValueRenderer, none)
  else if fd.Kind = Kind.Uint32Kind ∨ fd.Kind = Kind.Uint64Kind ∨
      fd.Kind = Kind.Int32Kind ∨ fd.Kind = Kind.Int64Kind then
    (some NewIntValueRenderer, none)
  else if fd.Kind = Kind.EnumKind then
    (some (NewEnumValueRenderer fd), none)
  else if fd.Kind = Kind.MessageKind then
    let md := fd.Message
    let fullName := md.FullName
    let (vr, found) := r.messages.get fullName
    if found then (vr, none)
    else if fd.IsMap then
      (none, some ⟨"value renderers cannot format value of type map"⟩)
    else (some (NewMessageValueRenderer self md), none)
  else
    (none, some ⟨"value renderers cannot format value of type " ++ fd.Kind.String⟩)

/-- GetMessageValueRenderer is a specialization of GetValueRenderer for messages. -/
def Textual.GetMessageValueRenderer (self : TextualPtr) (r : Textual) (md : MessageDescriptor) :
    ValueRenderer × Option error :=
  let fullName := md.FullName
  let (vr, found) := r.messages.get fullName
  if found then (vr, none)
  else (some (NewMessageValueRenderer self md), none)

/-- DefineScalar adds a value renderer to the given Cosmos scalar. -/
def Textual.DefineScalar (self : TextualPtr) (r : Textual) (scalar : String)
    (vr : ValueRenderer) : Textual :=
  let r1 := Textual.init self r
  match r1.scalars with
  | some l => { r1 with scalars := some (tableSet l scalar vr) }
  | none => r1

/-! ## The entry point -/

/-- The top-level value textualv1.TextualData, kept abstract: its payload is an
argument of Format only. -/
structure TextualData where
  payload : List Byte
deriving DecidableEq, Repr

/-- The descriptor of every TextualData value. -/
def TextualData.Descriptor (_data : TextualData) : MessageDescriptor :=
  ⟨TextualDataFullName⟩

/-- The code outside this file that GetSignBytes calls: the method Format of a
renderer, and encode, which reports the bytes it wrote and its error. -/
structure Collaborators where
  Format : Renderer → Context → TextualData → List Screen × Option error
  encode : List Screen → List Byte × Option error

/-- GetSignBytes returns the transaction sign bytes.  The outer Option is none
when the call does not return: a method call on a nil renderer. -/
def Textual.GetSignBytes (c : Collaborators) (self : TextualPtr) (r : Textual)
    (ctx : Context) (data : TextualData) : Option (List Byte × Option error) :=
  match Textual.GetMessageValueRenderer self r data.Descriptor with
  | (_, some err) => some ([], some err)
  | (none, none) => none
  | (some vr, none) =>
    match c.Format vr ctx data with
    | (_, some err) => some ([], some err)
    | (screens, none) =>
      match c.encode screens with
      | (_, some err) => some ([], some err)
      | (written, none) => some (written, none)

/-! ## The entry point with collaborators that need not be functions

A statement about determinism needs collaborators whose result may fail to be
determined by their input.  Here the two calls out of `GetSignBytes` are
relations between the input and a possible result, and `GetSignBytes` relates
its input to every result it can return. -/

/-- The code outside this file that GetSignBytes calls, as relations: Format
relates a renderer, the registry state it reaches through the pointer it
holds, the context and the value to a possible result; encode relates the
screens to a possible pair of bytes written and error. -/
structure RelCollaborators where
  Format : Renderer → Textual → Context → TextualData → List Screen × Option error → Prop
  encode : List Screen → List Byte × Option error → Prop

/-- GetSignBytes over collaborators that are relations: the results the call can
return.  The statements are those of GetSignBytes, each call to a collaborator
taking any result the collaborator can give. -/
def Textual.GetSignBytesRel (c : RelCollaborators) (self : TextualPtr) (r : Textual)
    (ctx : Context) (data : TextualData) (out : Option (List Byte × Option error)) : Prop :=
  match Textual.GetMessageValueRenderer self r data.Descriptor with
  | (_, some err) => out = some ([], some err)
  | (none, none) => out = none
  | (some vr, none) =>
    ∃ fr : List Screen × Option error, c.Format vr r ctx data fr ∧
      match fr with
      | (_, some err) => out = some ([], some err)
      | (screens, none) =>
        ∃ er : List Byte × Option error, c.encode screens er ∧
          match er with
          | (_, some err) => out = some ([], some err)
          | (written, none) => out = some (written, none)

/-- Collaborators that are functions, seen as relations: the only result is the
value of the function. -/
def Collaborators.toRel (c : Collaborators) : RelCollaborators where
  Format := fun vr _ ctx data fr => fr = c.Format vr ctx data
  encode := fun screens er => er = c.encode screens

/-! ## Resolution as methods on the registry state

The two resolution methods have the pointer receiver `r *Textual`, so they
could write to the registry.  Here they are written as computations over the
registry state: each access to a field of `r` is a read of the state. -/

/-- GetFieldValueRenderer as a computation over the registry state. -/
def Textual.GetFieldValueRendererM (self : TextualPtr) (fd : FieldDescriptor) :
    StateM Textual (ValueRenderer × Option error) := do
  if fd.Kind = Kind.StringKind then
    if fd.Scalar ≠ ExtensionValue.str "" then
      match fd.Scalar with
      | ExtensionValue.other =>
        pure (none, some ⟨"got extension option " ++ "" ++ " of type string"⟩)
      | ExtensionValue.str scalar =>
        if scalar = "" then
          pure (none, some ⟨"got extension option " ++ scalar ++ " of type string"⟩)
        else
          let r ← get
          let vr := (r.scalars.get scalar).1
          if vr.isSome then pure (vr, none)
          else pure (some NewStringValueRenderer, none)
    else pure (some NewStringValueRenderer, none)
  else if fd.Kind = Kind.BytesKind then
    pure (some NewBytesValueRenderer, none)
  else if fd.Kind = Kind.Uint32Kind ∨ fd.Kind = Kind.Uint64Kind ∨
      fd.Kind = Kind.Int32Kind ∨ fd.Kind = Kind.Int64Kind then
    pure (some NewIntValueRenderer, none)
  else if fd.Kind = Kind.EnumKind then
    pure (some (NewEnumValueRenderer fd), none)
  else if fd.Kind = Kind.MessageKind then
    let md := fd.Message
    let fullName := md.FullName
    let r ← get
    let (vr, found) := r.messages.get fullName
    if found then pure (vr, none)
    else if fd.IsMap then
      pure (none, some ⟨"value renderers cannot format value of type map"⟩)
    else pure (some (NewMessageValueRenderer self md), none)
  else
    pure (none, some ⟨"value renderers cannot format value of type " ++ fd.Kind.String⟩)

/-- GetMessageValueRenderer as a computation over the registry state. -/
def Textual.GetMessageValueRendererM (self : TextualPtr) (md : MessageDescriptor) :
    StateM Textual (ValueRenderer × Option error) := do
  let fullName := md.FullName
  let r ← get
  let (vr, found) := r.messages.get fullName
  if found then pure (vr, none)
  else pure (some (NewMessageValueRenderer self md), none)

/-! ## Sample inputs -/

/-- Collaborators whose Format fails on every input. -/
def formatFails : Collaborators where
  Format := fun _ _ _ => ([], some ⟨"coin metadata not found"⟩)
  encode := fun _ => ([], none)

/-- Collaborators whose Format yields one screen and whose encode fails after
having written two bytes. -/
def encodeFails : Collaborators where
  Format := fun _ _ d => ([⟨"tx", d.payload.length, false⟩], none)
  encode := fun _ => ([1, 2], some ⟨"short write"⟩)

/-- Collaborators that succeed: one screen per payload byte, and an encoding
that writes the indent level of each screen. -/
def formatOk : Collaborators where
  Format := fun _ _ d => (d.payload.map (fun b => ⟨"b", b.val, false⟩), none)
  encode := fun ss => (ss.map (fun sc => Fin.ofNat sc.indentLevel), none)

/-- Collaborators whose Format is not a function of its input: on every input it
can return no screen or one screen. -/
def formatEither : RelCollaborators where
  Format := fun _ _ _ _ fr => fr = ([], none) ∨ fr = ([⟨"tx", 0, false⟩], none)
  encode := fun screens er => er = (screens.map (fun sc => Fin.ofNat sc.text.length), none)

/-- A registry whose composite map holds an entry under the name of a map-entry
message. -/
def entryRegistered : Textual where
  coinMetadataQuerier := none
  scalars := none
  messages := some [("testpb.Foo.AttrsEntry", some NewStringValueRenderer)]

/-- A map-typed field whose entry message is testpb.Foo.AttrsEntry. -/
def attrsField : FieldDescriptor where
  Kind := Kind.MessageKind
  Scalar := ExtensionValue.str ""
  Message := ⟨"testpb.Foo.AttrsEntry"⟩
  IsMap := true

/-- A field of the given kind with no scalar annotation, as the descriptor of a
plain scalar field reports it. -/
def plainField (k : Kind) : FieldDescriptor where
  Kind := k
  Scalar := ExtensionValue.str ""
  Message := ⟨""⟩
  IsMap := false

/-- A string field carrying the given named-scalar annotation. -/
def scalarField (s : String) : FieldDescriptor where
  Kind := Kind.StringKind
  Scalar := ExtensionValue.str s
  Message := ⟨""⟩
  IsMap := false

/-- A non-map field whose type is the message with the given full name. -/
def messageField (name : String) : FieldDescriptor where
  Kind := Kind.MessageKind
  Scalar := ExtensionValue.str ""
  Message := ⟨name⟩
  IsMap := false

end valuerenderer

/-!
# Amino JSON marshalling

A shallow embedding of `codec/aminojson/json_marshal.go`: `MarshalAmino`,
`marshal`, `marshalMessage`, `marshalList` and `invokeStdlibJSONMarshal`.
The method `marshalAny` is called by none of them and is left out.

Conventions of the embedding.
* Byte strings that are written are Lean strings.
* An `io.Writer` is a state type with a `Write` function that returns the new
  state and the error; `bytesBuffer` is `bytes.Buffer`, whose state is what
  has been written so far and whose `Write` does not fail.
* The standard-library functions `json.Marshal` and
  `base64.StdEncoding.EncodeToString` are arguments, gathered in `Stdlib`.
-/

namespace aminojson

/-- A Go error value, identified by its message. -/
structure error where
  msg : String
deriving DecidableEq, Repr

/-- An io.Writer over states of type σ. -/
structure Writer (σ : Type) where
  Write : σ → String → σ × Option error

/-- The writer bytes.Buffer: the state is the content, and Write appends. -/
def bytesBuffer : Writer String where
  Write := fun buf p => (buf ++ p, none)

/-- The values handed to json.Marshal: a string (also a field name), a bool, an
int32, a uint32 or an enum number. -/
inductive StdValue where
  | string (s : String)
  | bool (b : Bool)
  | int32 (n : Int)
  | uint32 (n : Nat)
  | enumNumber (n : Int)
deriving DecidableEq, Repr

/-- The standard-library functions the marshaller calls. -/
structure Stdlib where
  jsonMarshal : StdValue → String × Option error
  base64EncodeToString : List (Fin 256) → String

/-- A field descriptor, as far as the marshaller reads it: its name. -/
structure FieldDescriptor where
  Name : String
deriving DecidableEq, Repr

/-- One field of a message value: the name of its descriptor, and for the
message at hand Has(f) and Get(f). -/
structure Field (α : Type) where
  Name : String
  Has : Bool
  Get : α
deriving Repr

/-- A protoreflect.Value by the Go type of its Interface(): the thirteen types a
value can hold.  A message is the list of its descriptor's fields in index
order, each with what Has and Get return for it. -/
inductive Value where
  | message (fields : List (Field Value))
  | map
  | list (elems : List Value)
  | string (s : String)
  | bool (b : Bool)
  | int32 (n : Int)
  | uint32 (n : Nat)
  | enumNumber (n : Int)
  | uint64 (n : Nat)
  | int64 (n : Int)
  | bytes (b : List (Fin 256))
  | float32 (bits : Nat)
  | float64 (bits : Nat)

/-- The text the verb %d prints for an integer: its decimal digits, after a minus
sign when it is negative. -/
def fmtD (n : Int) : String :=
  if n < 0 then "-" ++ Nat.repr n.natAbs else Nat.repr n.natAbs

/-- The function invokeStdlibJSONMarshal: json.Marshal, then one Write of the
blob. -/
def invokeStdlibJSONMarshal {σ : Type} (lib : Stdlib) (w : Writer σ) (st : σ) (v : StdValue) :
    σ × Option error :=
  match lib.jsonMarshal v with
  | (_, some err) => (st, some err)
  | (blob, none) => w.Write st blob

mutual
/-- The method marshal.  In the message and list cases the bodies of marshalMessage
and marshalList stand in place of the calls; the fields and elements are walked
by the two loops below. -/
def marshal {σ : Type} (lib : Stdlib) (w : Writer σ) :
    Value → Option FieldDescriptor → σ → σ × Option error
  | .message fields, _, st =>
    match w.Write st "\x7b" with
    | (st1, some err) => (st1, some err)
    | (st1, none) =>
      match marshalMessageLoop lib w fields true st1 with
      | (st2, some err) => (st2, some err)
      | (st2, none) =>
        match w.Write st2 "\x7d" with
        | (st3, some err) => (st3, some err)
        | (st3, none) => (st3, none)
  | .map, _, st => (st, some ⟨"maps are not supported"⟩)
  | .list elems, field, st =>
    match w.Write st "[" with
    | (st1, some err) => (st1, some err)
    | (st1, none) =>
      match marshalListLoop lib w field elems true st1 with
      | (st2, some err) => (st2, some err)
      | (st2, none) => w.Write st2 "]"
  | .string s, _, st => invokeStdlibJSONMarshal lib w st (.string s)
  | .bool b, _, st => invokeStdlibJSONMarshal lib w st (.bool b)
  | .int32 n, _, st => invokeStdlibJSONMarshal lib w st (.int32 n)
  | .uint32 n, _, st => invokeStdlibJSONMarshal lib w st (.uint32 n)
  | .enumNumber n, _, st => invokeStdlibJSONMarshal lib w st (.enumNumber n)
  | .uint64 n, _, st => w.Write st ("\"" ++ fmtD n ++ "\"")
  | .int64 n, _, st => w.Write st ("\"" ++ fmtD n ++ "\"")
  | .bytes b, _, st => w.Write st ("\"" ++ lib.base64EncodeToString b ++ "\"")
  | .float32 _, _, st => (st, none)
  | .float64 _, _, st => (st, none)
/-- The for loop of marshalMessage over the fields from index i on, with the
current value of the variable first. -/
def marshalMessageLoop {σ : Type} (lib : Stdlib) (w : Writer σ) :
    List (Field Value) → Bool → σ → σ × Option error
  | [], _, st => (st, none)
  | f :: rest, first, st =>
    let v := f.Get
    if !f.Has then marshalMessageLoop lib w rest first st
    else
      match (if !first then w.Write st "," else (st, none)) with
      | (st1, some err) => (st1, some err)
      | (st1, none) =>
        match invokeStdlibJSONMarshal lib w st1 (.string f.Name) with
        | (st2, some err) => (st2, some err)
        | (st2, none) =>
          match w.Write st2 ":" with
          | (st3, some err) => (st3, some err)
          | (st3, none) =>
            match marshal lib w v (some ⟨f.Name⟩) st3 with
            | (st4, some err) => (st4, some err)
            | (st4, none) => marshalMessageLoop lib w rest false st4
/-- The for loop of marshalList over the elements from index i on, with the
current value of the variable first. -/
def marshalListLoop {σ : Type} (lib : Stdlib) (w : Writer σ) :
    Option FieldDescriptor → List Value → Bool → σ → σ × Option error
  | _, [], _, st => (st, none)
  | fieldDescriptor, v :: rest, first, st =>
    match (if !first then w.Write st "," else (st, none)) with
    | (st1, some err) => (st1, some err)
    | (st1, none) =>
      match marshal lib w v fieldDescriptor st1 with
      | (st2, some err) => (st2, some err)
      | (st2, none) => marshalListLoop lib w fieldDescriptor rest false st2
end

/-- The method marshalMessage on the fields of msg. -/
def marshalMessage {σ : Type} (lib : Stdlib) (w : Writer σ) (msg : List (Field Value))
    (st : σ) : σ × Option error :=
  match w.Write st "\x7b" with
  | (st1, some err) => (st1, some err)
  | (st1, none) =>
    match marshalMessageLoop lib w msg true st1 with
    | (st2, some err) => (st2, some err)
    | (st2, none) =>
      match w.Write st2 "\x7d" with
      | (st3, some err) => (st3, some err)
      | (st3, none) => (st3, none)

/-- The method marshalList on the elements of list. -/
def marshalList {σ : Type} (lib : Stdlib) (w : Writer σ)
    (fieldDescriptor : Option FieldDescriptor) (list : List Value) (st : σ) :
    σ × Option error :=
  match w.Write st "[" with
  | (st1, some err) => (st1, some err)
  | (st1, none) =>
    match marshalListLoop lib w fieldDescriptor list true st1 with
    | (st2, some err) => (st2, some err)
    | (st2, none) => w.Write st2 "]"

/-- MarshalAmino: marshal of the message into a fresh bytes.Buffer; the content of
the buffer is returned together with the error. -/
def MarshalAmino (lib : Stdlib) (message : List (Field Value)) : String × Option error :=
  marshal lib bytesBuffer (.message message) none ""

/-! ## Vocabulary of the statements -/

mutual
/-- Whether marshalling a value reaches a map: the value is a map, or a message
with a present field whose value reaches one, or a list with an element that
reaches one. -/
def Value.reachesMap : Value → Bool
  | .map => true
  | .message fields => fieldsReachMap fields
  | .list elems => elemsReachMap elems
  | _ => false
/-- Whether some present field among the given ones reaches a map. -/
def fieldsReachMap : List (Field Value) → Bool
  | [] => false
  | f :: rest => (f.Has && f.Get.reachesMap) || fieldsReachMap rest
/-- Whether some element among the given ones reaches a map. -/
def elemsReachMap : List Value → Bool
  | [] => false
  | v :: rest => v.reachesMap || elemsReachMap rest
end

/-- Whether the Go type of a value is one the type switch of marshal has a case
for: message, map, list, string, bool, int32, uint32, enum number, uint64,
int64 or bytes. -/
def Value.inSwitch : Value → Bool
  | .message _ => true
  | .map => true
  | .list _ => true
  | .string _ => true
  | .bool _ => true
  | .int32 _ => true
  | .uint32 _ => true
  | .enumNumber _ => true
  | .uint64 _ => true
  | .int64 _ => true
  | .bytes _ => true
  | .float32 _ => false
  | .float64 _ => false

/-- Each entry after a comma: what the loops write once something has been
written. -/
def commaPrefixed : List String → String
  | [] => ""
  | e :: rest => "," ++ e ++ commaPrefixed rest

/-- The entries name:value of the present fields of a message, in the index order
of the descriptor's field list: the name as json.Marshal writes it, a colon,
and what marshal writes for the value. -/
def messageEntries (lib : Stdlib) (fields : List (Field Value)) : List String :=
  (fields.filter (fun f => f.Has)).map (fun f =>
    (lib.jsonMarshal (.string f.Name)).1 ++ ":" ++
      (marshal lib bytesBuffer f.Get (some ⟨f.Name⟩) "").1)

/-! ## Checked steps -/

/-- The check `if err != nil { return err }` between two steps: the second step
runs on the state the first one left, unless the first reported an error. -/
def andThen {σ : Type} (r : σ × Option error) (k : σ → σ × Option error) : σ × Option error :=
  match r with
  | (st, some err) => (st, some err)
  | (st, none) => k st

/-- A step that writes to a bytes.Buffer extends the buffer it is given by what
it writes to an empty one, and reports the same error. -/
def Extends (f : String → String × Option error) : Prop :=
  ∀ buf : String, f buf = (buf ++ (f "").1, (f "").2)

/-! ## Sample inputs -/

/-- The base64 alphabet of the standard encoding. -/
def base64Alphabet : List Char :=
  "ABCDEFGHIJKLMNOPQRSTUVWXYZabcdefghijklmnopqrstuvwxyz0123456789+/".toList

/-- The character of the standard base64 alphabet for a six-bit group. -/
def base64Char (n : Nat) : Char := base64Alphabet.getD (n % 64) 'A'

/-- The standard base64 encoding with padding. -/
def base64Std : List (Fin 256) → String
  | a :: b :: c :: rest =>
    let n := a.val * 65536 + b.val * 256 + c.val
    String.mk [base64Char (n / 262144), base64Char (n / 4096), base64Char (n / 64),
      base64Char n] ++ base64Std rest
  | [a, b] =>
    let n := a.val * 65536 + b.val * 256
    String.mk [base64Char (n / 262144), base64Char (n / 4096), base64Char (n / 64), '=']
  | [a] =>
    let n := a.val * 65536
    String.mk [base64Char (n / 262144), base64Char (n / 4096), '=', '=']
  | [] => ""

/-- A standard library for the examples: json.Marshal as it acts on bools, on
integers and on strings that need no escaping, and the standard base64
encoding. -/
def sampleStdlib : Stdlib where
  jsonMarshal := fun v =>
    match v with
    | .string s => ("\"" ++ s ++ "\"", none)
    | .bool b => (if b then "true" else "false", none)
    | .int32 n => (fmtD n, none)
    | .uint32 n => (fmtD n, none)
    | .enumNumber n => (fmtD n, none)
  base64EncodeToString := base64Std

/-- A message with a present int64 field, an absent field and a present list. -/
def sampleMessage : List (Field Value) :=
  [⟨"height", true, .int64 (-5)⟩, ⟨"memo", false, .string ""⟩,
   ⟨"tags", true, .list [.string "x", .uint64 7]⟩]

/-- A message with a present double field between two present string fields. -/
def sampleWithDouble : List (Field Value) :=
  [⟨"a", true, .string "x"⟩, ⟨"rate", true, .float64 4609434218613702656⟩,
   ⟨"d", true, .string "y"⟩]

/-- A message whose second present field is a map. -/
def sampleMapField : List (Field Value) :=
  [⟨"a", true, .string "x"⟩, ⟨"b", true, .map⟩, ⟨"d", true, .string "y"⟩]

/-- A message whose present nested message has a present map field after a
present string field. -/
def sampleWithMap : List (Field Value) :=
  [⟨"a", true, .string "x"⟩,
   ⟨"b", true, .message [⟨"c", true, .bool true⟩, ⟨"m", true, .map⟩]⟩,
   ⟨"d", true, .string "y"⟩]

end aminojson

/-!
# Generic Message and Repeated renderers

The renderers exercised by `x/tx/textual/repeated_test.go` are declared in
files that are not part of the sources at hand; the definitions below follow
the description of the specification (data model, composite renderers, error
kinds).
-/

namespace textual

open valuerenderer (Screen error)

/-- Modelled from the spec: the structured value a renderer formats, which is
declared outside the sources at hand: a string leaf, a repeated value, or a
message given by its fields in schema declaration order, each present (set) or
absent. -/
inductive Value where
  | str (s : String)
  | list (elems : List Value)
  | msg (fields : List (Option Value))

/-- Modelled from the spec: the error kind UnsupportedParse, declared outside the
sources at hand: Parse invoked on a render-only renderer. -/
def UnsupportedParse : error := ⟨"UnsupportedParse"⟩

/-- Modelled from the spec: the error kind MalformedInput, declared outside the
sources at hand: unexpected Screen structure, leftover or missing Screens. -/
def MalformedInput : error := ⟨"MalformedInput"⟩

/-- Modelled from the spec: the error kind UnsupportedKind, declared outside the
sources at hand: a renderer handed a value it cannot handle. -/
def UnsupportedKind : error := ⟨"UnsupportedKind"⟩

/-- Modelled from the spec: the Renderer interface, declared outside the sources
at hand: a Format/Parse pair for one scalar or composite type. -/
structure Renderer where
  Format : Value → Except error (List Screen)
  Parse : List Screen → Except error Value

/-- Modelled from the spec: nesting, which the renderers outside the sources at
hand perform: a rendered value is placed k indent levels deeper. -/
def indentBy (k : Nat) (s : Screen) : Screen :=
  { s with indentLevel := s.indentLevel + k }

/-- Modelled from the spec: the inverse of nesting on the Parse side, as the
renderers outside the sources at hand perform it: a Screen is lifted k indent
levels. -/
def unindentBy (k : Nat) (s : Screen) : Screen :=
  { s with indentLevel := s.indentLevel - k }

/-- Modelled from the spec: the String renderer, declared outside the sources at
hand: String renders verbatim, and Parse is a direct inverse. -/
def stringRenderer : Renderer where
  Format := fun v =>
    match v with
    | .str s => .ok [⟨s, 0, false⟩]
    | _ => .error UnsupportedKind
  Parse := fun screens =>
    match screens with
    | [sc] => if sc.indentLevel = 0 then .ok (.str sc.text) else .error MalformedInput
    | _ => .error MalformedInput

/-- Modelled from the spec: the element part of the Repeated renderer's Format,
declared outside the sources at hand: each element's rendering at indent level
+1, prefixed with its 1-based position. -/
def formatElems (elem : Renderer) : Nat → List Value → Except error (List Screen)
  | _, [] => .ok []
  | pos, v :: rest =>
    match elem.Format v with
    | .error e => .error e
    | .ok ss =>
      match formatElems elem (pos + 1) rest with
      | .error e => .error e
      | .ok more => .ok ((⟨toString pos, 1, false⟩ :: ss.map (indentBy 1)) ++ more)

/-- Modelled from the spec: the Repeated renderer, declared outside the sources at
hand: Format renders a header Screen stating the element count ("N item(s)")
followed by each element's rendering at indent level +1, each prefixed with
its 1-based position.  Render-only: Parse is not supported and fails
explicitly. -/
def repeatedRenderer (elem : Renderer) : Renderer where
  Format := fun v =>
    match v with
    | .list elems =>
      match formatElems elem 1 elems with
      | .error e => .error e
      | .ok ss => .ok (⟨toString elems.length ++ " item(s)", 0, false⟩ :: ss)
    | _ => .error UnsupportedKind
  Parse := fun _ => .error UnsupportedParse

/-- Modelled from the spec: one field of a message schema, which the reflection
collaborator outside the sources at hand exposes: its name and the renderer
the registry resolves for it. -/
structure FieldSpec where
  name : String
  renderer : Renderer

/-- Modelled from the spec: Format of the generic Message renderer, declared
outside the sources at hand: for every field present in the value (absent
fields are skipped) and in schema declaration order, a header line naming the
field and the recursively rendered value at indent level +1. -/
def formatFields : List FieldSpec → List (Option Value) → Except error (List Screen)
  | [], _ => .ok []
  | _ :: _, [] => .ok []
  | _ :: fs, none :: vs => formatFields fs vs
  | f :: fs, some v :: vs =>
    match f.renderer.Format v with
    | .error e => .error e
    | .ok ss =>
      match formatFields fs vs with
      | .error e => .error e
      | .ok rest => .ok ((⟨f.name, 0, false⟩ :: ss.map (indentBy 1)) ++ rest)

/-- Modelled from the spec: Parse of the generic Message renderer, declared
outside the sources at hand: it walks the nested Screens back into field
values in schema declaration order.  A header Screen naming the field opens
the field, whose value is parsed from the deeper Screens that follow; a field
without header is absent; Screens left over at the end (an unexpected header,
a missing structure) are rejected. -/
def parseFields : List FieldSpec → List Screen → Except error (List (Option Value))
  | [], [] => .ok []
  | [], _ :: _ => .error MalformedInput
  | _ :: fs, [] =>
    match parseFields fs [] with
    | .error e => .error e
    | .ok vs => .ok (none :: vs)
  | f :: fs, hd :: tl =>
    if hd.text = f.name ∧ hd.indentLevel = 0 then
      let body := tl.takeWhile (fun s => decide (0 < s.indentLevel))
      let rest := tl.dropWhile (fun s => decide (0 < s.indentLevel))
      match f.renderer.Parse (body.map (unindentBy 1)) with
      | .error e => .error e
      | .ok v =>
        match parseFields fs rest with
        | .error e => .error e
        | .ok vs => .ok (some v :: vs)
    else
      match parseFields fs (hd :: tl) with
      | .error e => .error e
      | .ok vs => .ok (none :: vs)

/-- Modelled from the spec: the generic Message renderer over a schema, declared
outside the sources at hand (NewMessageValueRenderer). -/
def messageRenderer (schema : List FieldSpec) : Renderer where
  Format := fun v =>
    match v with
    | .msg fields => formatFields schema fields
    | _ => .error UnsupportedKind
  Parse := fun screens =>
    match parseFields schema screens with
    | .error e => .error e
    | .ok fields => .ok (.msg fields)

end textual

/-! # Theorems -/

namespace valuerenderer

open Renderer

/-! ## Shared lemmas -/

/-- GetMessageValueRenderer reports no error, whatever the registry and descriptor. -/
theorem GetMessageValueRenderer_err (self : TextualPtr) (r : Textual) (md : MessageDescriptor) :
    (Textual.GetMessageValueRenderer self r md).2 = none := by
  unfold Textual.GetMessageValueRenderer
  dsimp only
  split <;> rfl

/-- The registry built by NewTextual resolves TextualData to the renderer made by
NewTxValueRenderer over the address the registry was built at. -/
theorem NewTextual_resolves_tx (self self' : TextualPtr) (q : CoinMetadataQueryFn)
    (data : TextualData) :
    Textual.GetMessageValueRenderer self' (NewTextual self q) data.Descriptor
      = (some (NewTxValueRenderer self), none) := by
  rfl

/-- The composite map of a registry built by NewTextual, entry by entry. -/
theorem NewTextual_messages (self : TextualPtr) (q : CoinMetadataQueryFn) :
    (NewTextual self q).messages = some
      [(CoinFullName, some (NewCoinsValueRenderer q)),
       (DurationFullName, some NewDurationValueRenderer),
       (TimestampFullName, some NewTimestampValueRenderer),
       (AnyFullName, some (NewAnyValueRenderer self)),
       (TextualDataFullName, some (NewTxValueRenderer self))] := by
  rfl

/-- The composite map of a registry built by NewTextual has an entry for a name
exactly when the name is one of the five pre-registered ones. -/
theorem NewTextual_messages_found (self : TextualPtr) (q : CoinMetadataQueryFn)
    (name : String) :
    ((NewTextual self q).messages.get name).2 = true ↔
      name ∈ [CoinFullName, DurationFullName, TimestampFullName, AnyFullName,
        TextualDataFullName] := by
  rw [NewTextual_messages]
  simp only [RendererMap.get, List.lookup, List.mem_cons, List.mem_singleton]
  by_cases h1 : name = CoinFullName
  · subst h1; simp [CoinFullName]
  by_cases h2 : name = DurationFullName
  · subst h2; simp [CoinFullName, DurationFullName]
  by_cases h3 : name = TimestampFullName
  · subst h3; simp [CoinFullName, DurationFullName, TimestampFullName]
  by_cases h4 : name = AnyFullName
  · subst h4; simp [CoinFullName, DurationFullName, TimestampFullName, AnyFullName]
  by_cases h5 : name = TextualDataFullName
  · subst h5
    simp [CoinFullName, DurationFullName, TimestampFullName, AnyFullName, TextualDataFullName]
  · have e1 : (name == CoinFullName) = false := by simpa using h1
    have e2 : (name == DurationFullName) = false := by simpa using h2
    have e3 : (name == TimestampFullName) = false := by simpa using h3
    have e4 : (name == AnyFullName) = false := by simpa using h4
    have e5 : (name == TextualDataFullName) = false := by simpa using h5
    simp [e1, e2, e3, e4, e5, h1, h2, h3, h4, h5]

/-- An index expression that finds nothing yields the nil renderer. -/
theorem RendererMap.get_not_found (m : RendererMap) (k : String)
    (h : (m.get k).2 = false) : (m.get k).1 = none := by
  unfold RendererMap.get at h ⊢
  cases m with
  | none => rfl
  | some l =>
    dsimp only at h ⊢
    cases hl : l.lookup k with
    | none => rfl
    | some v => rw [hl] at h; cases h

/-- The scalar map of a registry built by NewTextual, entry by entry. -/
theorem NewTextual_scalars (self : TextualPtr) (q : CoinMetadataQueryFn) :
    (NewTextual self q).scalars = some
      [("cosmos.Int", some NewIntValueRenderer), ("cosmos.Dec", some NewDecValueRenderer)] := by
  rfl

/-! ## GetSignBytes -/

/-- C1: if the resolved renderer's Format fails with error e, or Format succeeds
and encode fails with error e, then GetSignBytes returns that same error e and
no bytes. -/
theorem GetSignBytes_error_unwrapped (c : Collaborators) (self : TextualPtr) (r : Textual)
    (ctx : Context) (data : TextualData) (vr : Renderer) (e : error)
    (hres : (Textual.GetMessageValueRenderer self r data.Descriptor).1 = some vr)
    (hfail : (c.Format vr ctx data).2 = some e ∨
      ((c.Format vr ctx data).2 = none ∧ (c.encode (c.Format vr ctx data).1).2 = some e)) :
    Textual.GetSignBytes c self r ctx data = some ([], some e) := by
  have herr := GetMessageValueRenderer_err self r data.Descriptor
  have hpair : Textual.GetMessageValueRenderer self r data.Descriptor = (some vr, none) :=
    Prod.ext hres herr
  unfold Textual.GetSignBytes
  rw [hpair]
  dsimp only
  rcases hfail with hf | ⟨hf, he⟩
  · cases hfmt : c.Format vr ctx data with
    | mk screens ferr =>
      rw [hfmt] at hf
      dsimp only at hf
      subst hf
      rfl
  · cases hfmt : c.Format vr ctx data with
    | mk screens ferr =>
      rw [hfmt] at hf he
      dsimp only at hf he
      subst hf
      cases henc : c.encode screens with
      | mk written eerr =>
        rw [henc] at he
        dsimp only at he
        subst he
        dsimp only
        rw [henc]

/-- C1 at concrete inputs: a failing Format, and a failing encode that had already
written two bytes; both calls return the error and no bytes. -/
theorem GetSignBytes_error_unwrapped_witness :
    Textual.GetSignBytes formatFails ⟨1⟩ (NewTextual ⟨0⟩ none) ⟨7⟩ ⟨[3, 4]⟩
        = some ([], some ⟨"coin metadata not found"⟩) ∧
    Textual.GetSignBytes encodeFails ⟨1⟩ (NewTextual ⟨0⟩ none) ⟨7⟩ ⟨[3, 4]⟩
        = some ([], some ⟨"short write"⟩) :=
  ⟨GetSignBytes_error_unwrapped formatFails ⟨1⟩ (NewTextual ⟨0⟩ none) ⟨7⟩ ⟨[3, 4]⟩
      (NewTxValueRenderer ⟨0⟩) ⟨"coin metadata not found"⟩ rfl (Or.inl rfl),
   GetSignBytes_error_unwrapped encodeFails ⟨1⟩ (NewTextual ⟨0⟩ none) ⟨7⟩ ⟨[3, 4]⟩
      (NewTxValueRenderer ⟨0⟩) ⟨"short write"⟩ rfl (Or.inr ⟨rfl, rfl⟩)⟩

/-- C2: on a registry built by NewTextual, GetSignBytes resolves the renderer made
by NewTxValueRenderer for the TextualData wrapper (never a generic Message
renderer), and when that renderer's Format returns screens s and encode
succeeds on s, the result is exactly the bytes encode wrote and no error. -/
theorem GetSignBytes_NewTextual (c : Collaborators) (self caller : TextualPtr)
    (q : CoinMetadataQueryFn) (ctx : Context) (data : TextualData) :
    Textual.GetMessageValueRenderer caller (NewTextual self q) data.Descriptor
        = (some (NewTxValueRenderer self), none) ∧
    (∀ (p : TextualPtr) (md : MessageDescriptor),
      (Textual.GetMessageValueRenderer caller (NewTextual self q) data.Descriptor).1
        ≠ some (NewMessageValueRenderer p md)) ∧
    (∀ (s : List Screen) (b : List Byte),
      c.Format (NewTxValueRenderer self) ctx data = (s, none) →
      c.encode s = (b, none) →
      Textual.GetSignBytes c caller (NewTextual self q) ctx data = some (b, none)) := by
  have hres := NewTextual_resolves_tx self caller q data
  refine ⟨hres, ?_, ?_⟩
  · intro p md h
    rw [hres] at h
    cases h
  · intro s b hfmt henc
    unfold Textual.GetSignBytes
    rw [hres]
    dsimp only
    rw [hfmt]
    dsimp only
    rw [henc]

/-- C2 at a concrete input: the payload [3, 4] is rendered by the registered
wrapper renderer and encoded to the bytes [3, 4]. -/
theorem GetSignBytes_NewTextual_witness :
    Textual.GetSignBytes formatOk ⟨1⟩ (NewTextual ⟨0⟩ none) ⟨7⟩ ⟨[3, 4]⟩ = some ([3, 4], none) :=
  (GetSignBytes_NewTextual formatOk ⟨0⟩ ⟨1⟩ none ⟨7⟩ ⟨[3, 4]⟩).2.2
    [⟨"b", 3, false⟩, ⟨"b", 4, false⟩] [3, 4] rfl rfl

/-- With collaborators that are functions, the one result GetSignBytesRel allows is
the value of GetSignBytes. -/
theorem GetSignBytesRel_toRel (c : Collaborators) (self : TextualPtr) (r : Textual)
    (ctx : Context) (data : TextualData) (out : Option (List Byte × Option error)) :
    Textual.GetSignBytesRel c.toRel self r ctx data out
      ↔ out = Textual.GetSignBytes c self r ctx data := by
  unfold Textual.GetSignBytesRel Textual.GetSignBytes
  rcases hres : Textual.GetMessageValueRenderer self r data.Descriptor with ⟨vr, err⟩
  cases err with
  | some e => simp
  | none =>
    cases vr with
    | none => simp
    | some vr =>
      simp only [Collaborators.toRel, exists_eq_left]
      rcases hf : c.Format vr ctx data with ⟨screens, ferr⟩
      cases ferr with
      | some e => simp
      | none =>
        simp only [exists_eq_left]
        rcases he : c.encode screens with ⟨written, eerr⟩
        cases eerr <;> simp

/-- With a Format that is not a function of its input, one call of GetSignBytes on
one registry and one value can return different bytes. -/
theorem GetSignBytesRel_formatEither :
    Textual.GetSignBytesRel formatEither ⟨1⟩ (NewTextual ⟨0⟩ none) ⟨7⟩ ⟨[3, 4]⟩
      (some ([], none)) ∧
    Textual.GetSignBytesRel formatEither ⟨1⟩ (NewTextual ⟨0⟩ none) ⟨7⟩ ⟨[3, 4]⟩
      (some ([2], none)) := by
  constructor
  · exact ⟨([], none), Or.inl rfl, ([], none), rfl, rfl⟩
  · exact ⟨([⟨"tx", 0, false⟩], none), Or.inr rfl, ([2], none), rfl, rfl⟩

/-- C3: GetSignBytes is deterministic, given that Format and encode are functions of
their input: when each of the two relates an input to at most one result, two
calls on one registry with structurally equal top-level values return
identical results, the same bytes or the same error; and when each of the two
gives some result on every input, the call returns a result. -/
theorem GetSignBytesRel_deterministic (c : RelCollaborators)
    (hFormat : ∀ vr r ctx data a b, c.Format vr r ctx data a → c.Format vr r ctx data b → a = b)
    (hencode : ∀ screens a b, c.encode screens a → c.encode screens b → a = b)
    (self : TextualPtr) (r : Textual) (ctx : Context) (d₁ d₂ : TextualData) (heq : d₁ = d₂) :
    (∀ o₁ o₂ : Option (List Byte × Option error),
      Textual.GetSignBytesRel c self r ctx d₁ o₁ →
      Textual.GetSignBytesRel c self r ctx d₂ o₂ → o₁ = o₂) ∧
    ((∀ vr r ctx data, ∃ a, c.Format vr r ctx data a) → (∀ screens, ∃ a, c.encode screens a) →
      ∃ o, Textual.GetSignBytesRel c self r ctx d₁ o) := by
  subst heq
  constructor
  · intro o₁ o₂ h₁ h₂
    unfold Textual.GetSignBytesRel at h₁ h₂
    rcases hres : Textual.GetMessageValueRenderer self r d₁.Descriptor with ⟨vr, err⟩
    rw [hres] at h₁ h₂
    cases err with
    | some e =>
      cases vr <;> simp only at h₁ h₂ <;> rw [h₁, h₂]
    | none =>
      cases vr with
      | none =>
        simp only at h₁ h₂
        rw [h₁, h₂]
      | some vr =>
        simp only at h₁ h₂
        obtain ⟨fr₁, hf₁, k₁⟩ := h₁
        obtain ⟨fr₂, hf₂, k₂⟩ := h₂
        have hfr := hFormat vr r ctx d₁ fr₁ fr₂ hf₁ hf₂
        subst hfr
        obtain ⟨screens, ferr⟩ := fr₁
        cases ferr with
        | some e =>
          simp only at k₁ k₂
          rw [k₁, k₂]
        | none =>
          simp only at k₁ k₂
          obtain ⟨er₁, he₁, m₁⟩ := k₁
          obtain ⟨er₂, he₂, m₂⟩ := k₂
          have her := hencode screens er₁ er₂ he₁ he₂
          subst her
          obtain ⟨written, eerr⟩ := er₁
          cases eerr with
          | some e =>
            simp only at m₁ m₂
            rw [m₁, m₂]
          | none =>
            simp only at m₁ m₂
            rw [m₁, m₂]
  · intro hF hE
    unfold Textual.GetSignBytesRel
    rcases hres : Textual.GetMessageValueRenderer self r d₁.Descriptor with ⟨vr, err⟩
    cases err with
    | some e =>
      cases vr
      · exact ⟨some ([], some e), rfl⟩
      · exact ⟨some ([], some e), rfl⟩
    | none =>
      cases vr with
      | none => exact ⟨none, rfl⟩
      | some vr =>
        obtain ⟨fr, hfr⟩ := hF vr r ctx d₁
        obtain ⟨screens, ferr⟩ := fr
        cases ferr with
        | some e => exact ⟨some ([], some e), (screens, some e), hfr, rfl⟩
        | none =>
          obtain ⟨er, her⟩ := hE screens
          obtain ⟨written, eerr⟩ := er
          cases eerr with
          | some e =>
            exact ⟨some ([], some e), (screens, none), hfr, (written, some e), her, rfl⟩
          | none =>
            exact ⟨some (written, none), (screens, none), hfr, (written, none), her, rfl⟩

/-- C3 at a concrete input: with the collaborators formatOk seen as relations, two
calls on two separately built, structurally equal values; each returns the
bytes [3, 4], and the theorem gives that the two results are the same. -/
theorem GetSignBytesRel_deterministic_witness :
    Textual.GetSignBytesRel formatOk.toRel ⟨1⟩ (NewTextual ⟨0⟩ none) ⟨7⟩ ⟨[3] ++ [4]⟩
      (some ([3, 4], none)) ∧
    Textual.GetSignBytesRel formatOk.toRel ⟨1⟩ (NewTextual ⟨0⟩ none) ⟨7⟩ ⟨[3, 4]⟩
      (Textual.GetSignBytes formatOk ⟨1⟩ (NewTextual ⟨0⟩ none) ⟨7⟩ ⟨[3, 4]⟩) ∧
    some (([3, 4] : List Byte), (none : Option error))
      = Textual.GetSignBytes formatOk ⟨1⟩ (NewTextual ⟨0⟩ none) ⟨7⟩ ⟨[3, 4]⟩ :=
  ⟨(GetSignBytesRel_toRel formatOk _ _ _ _ _).mpr (by rfl),
   (GetSignBytesRel_toRel formatOk _ _ _ _ _).mpr (by rfl),
   (GetSignBytesRel_deterministic formatOk.toRel
      (fun _ _ _ _ a b ha hb => ha.trans hb.symm) (fun _ a b ha hb => ha.trans hb.symm)
      ⟨1⟩ (NewTextual ⟨0⟩ none) ⟨7⟩ ⟨[3] ++ [4]⟩ ⟨[3, 4]⟩ rfl).1 _ _
      ((GetSignBytesRel_toRel formatOk _ _ _ _ _).mpr (by rfl))
      ((GetSignBytesRel_toRel formatOk _ _ _ _ _).mpr (by rfl))⟩

/-! ## GetFieldValueRenderer: scalar kinds -/

/-- C4, as stated, fails: a sint32 field is not given the Int renderer; the call
returns no renderer and the unsupported-kind error. -/
theorem GetFieldValueRenderer_sint32_rejected :
    Textual.GetFieldValueRenderer ⟨1⟩ (NewTextual ⟨0⟩ none) (plainField Kind.Sint32Kind)
        = (none, some ⟨"value renderers cannot format value of type sint32"⟩) ∧
    Textual.GetFieldValueRenderer ⟨1⟩ (NewTextual ⟨0⟩ none) (plainField Kind.Sint32Kind)
        ≠ (some NewIntValueRenderer, none) := by
  constructor
  · rfl
  · intro h
    cases h

/-- C4, amended: a field of kind int32, int64, uint32 or uint64 resolves to the Int
renderer with no error; a field of kind sint32, sint64, fixed32, fixed64,
sfixed32 or sfixed64 is outside the accepted kinds and gets no renderer and
the unsupported-kind error naming its kind. -/
theorem GetFieldValueRenderer_integer_kinds (self : TextualPtr) (r : Textual)
    (fd : FieldDescriptor) :
    (fd.Kind ∈ [Kind.Int32Kind, Kind.Int64Kind, Kind.Uint32Kind, Kind.Uint64Kind] →
      Textual.GetFieldValueRenderer self r fd = (some NewIntValueRenderer, none)) ∧
    (fd.Kind ∈ [Kind.Sint32Kind, Kind.Sint64Kind, Kind.Fixed32Kind, Kind.Fixed64Kind,
        Kind.Sfixed32Kind, Kind.Sfixed64Kind] →
      Textual.GetFieldValueRenderer self r fd
        = (none, some ⟨"value renderers cannot format value of type " ++ fd.Kind.String⟩)) := by
  obtain ⟨k, sc, md, im⟩ := fd
  constructor <;> intro hk <;> cases k <;>
    simp [Textual.GetFieldValueRenderer, Kind.String] at hk ⊢

/-- C4, amended, at concrete inputs: a uint64 field and a fixed64 field. -/
theorem GetFieldValueRenderer_integer_kinds_witness :
    Textual.GetFieldValueRenderer ⟨1⟩ (NewTextual ⟨0⟩ none) (plainField Kind.Uint64Kind)
        = (some NewIntValueRenderer, none) ∧
    Textual.GetFieldValueRenderer ⟨1⟩ (NewTextual ⟨0⟩ none) (plainField Kind.Fixed64Kind)
        = (none, some ⟨"value renderers cannot format value of type " ++ "fixed64"⟩) :=
  ⟨(GetFieldValueRenderer_integer_kinds ⟨1⟩ (NewTextual ⟨0⟩ none)
      (plainField Kind.Uint64Kind)).1 (by decide),
   (GetFieldValueRenderer_integer_kinds ⟨1⟩ (NewTextual ⟨0⟩ none)
      (plainField Kind.Fixed64Kind)).2 (by decide)⟩

/-- C5, as stated, fails: on a registry whose composite map has an entry under the
entry-message name of a map-typed field, the field resolves to that entry with
no error; likewise on a registry built by NewTextual for a map-typed field
whose message descriptor carries a pre-registered name. -/
theorem GetFieldValueRenderer_map_entry_found :
    attrsField.Kind = Kind.MessageKind ∧ attrsField.IsMap = true ∧
    Textual.GetFieldValueRenderer ⟨0⟩ entryRegistered attrsField
      = (some NewStringValueRenderer, none) ∧
    Textual.GetFieldValueRenderer ⟨1⟩ (NewTextual ⟨0⟩ none)
        ⟨Kind.MessageKind, ExtensionValue.str "", ⟨AnyFullName⟩, true⟩
      = (some (NewAnyValueRenderer ⟨0⟩), none) := by
  refine ⟨rfl, rfl, ?_, ?_⟩
  · rfl
  · rfl

/-- C5, amended: for a map-typed field (message kind, IsMap true) the composite map
is consulted first.  When it has no entry under the field's message name, the
call returns no renderer and the error about maps; when it has one, that entry
is returned with no error.  On a registry built by NewTextual every map-typed
field whose message name is none of the five pre-registered names is
rejected. -/
theorem GetFieldValueRenderer_map (self : TextualPtr) (r : Textual) (fd : FieldDescriptor)
    (hk : fd.Kind = Kind.MessageKind) (hm : fd.IsMap = true) :
    ((r.messages.get fd.Message.FullName).2 = false →
      Textual.GetFieldValueRenderer self r fd
        = (none, some ⟨"value renderers cannot format value of type map"⟩)) ∧
    ((r.messages.get fd.Message.FullName).2 = true →
      Textual.GetFieldValueRenderer self r fd
        = ((r.messages.get fd.Message.FullName).1, none)) ∧
    (∀ (built : TextualPtr) (q : CoinMetadataQueryFn),
      fd.Message.FullName ∉ [CoinFullName, DurationFullName, TimestampFullName, AnyFullName,
        TextualDataFullName] →
      Textual.GetFieldValueRenderer self (NewTextual built q) fd
        = (none, some ⟨"value renderers cannot format value of type map"⟩)) := by
  have key : ∀ r' : Textual,
      ((r'.messages.get fd.Message.FullName).2 = false →
        Textual.GetFieldValueRenderer self r' fd
          = (none, some ⟨"value renderers cannot format value of type map"⟩)) ∧
      ((r'.messages.get fd.Message.FullName).2 = true →
        Textual.GetFieldValueRenderer self r' fd
          = ((r'.messages.get fd.Message.FullName).1, none)) := by
    intro r'
    constructor <;> intro hf <;>
      simp [Textual.GetFieldValueRenderer, hk, hm, hf]
  refine ⟨(key r).1, (key r).2, ?_⟩
  intro built q hnot
  apply (key (NewTextual built q)).1
  have := NewTextual_messages_found built q fd.Message.FullName
  cases hfound : ((NewTextual built q).messages.get fd.Message.FullName).2 with
  | false => rfl
  | true => exact absurd (this.mp hfound) hnot

/-- C5, amended, at a concrete input: the map-typed field on a registry built by
NewTextual. -/
theorem GetFieldValueRenderer_map_witness :
    Textual.GetFieldValueRenderer ⟨1⟩ (NewTextual ⟨0⟩ none) attrsField
      = (none, some ⟨"value renderers cannot format value of type map"⟩) :=
  (GetFieldValueRenderer_map ⟨1⟩ (NewTextual ⟨0⟩ none) attrsField rfl rfl).2.2 ⟨0⟩ none
    (by decide)

/-- C6: a field whose kind is none of string, bytes, enum, message or one of the ten
integer kinds (that is bool, float, double or group) gets no renderer and the
unsupported-kind error naming its kind, on every registry. -/
theorem GetFieldValueRenderer_other_kinds (self : TextualPtr) (r : Textual)
    (fd : FieldDescriptor)
    (hk : fd.Kind ∉ [Kind.StringKind, Kind.BytesKind, Kind.EnumKind, Kind.MessageKind,
      Kind.Int32Kind, Kind.Int64Kind, Kind.Uint32Kind, Kind.Uint64Kind, Kind.Sint32Kind,
      Kind.Sint64Kind, Kind.Fixed32Kind, Kind.Fixed64Kind, Kind.Sfixed32Kind,
      Kind.Sfixed64Kind]) :
    fd.Kind ∈ [Kind.BoolKind, Kind.FloatKind, Kind.DoubleKind, Kind.GroupKind] ∧
    (Textual.GetFieldValueRenderer self r fd).1 = none ∧
    (Textual.GetFieldValueRenderer self r fd).2
      = some ⟨"value renderers cannot format value of type " ++ fd.Kind.String⟩ := by
  obtain ⟨k, sc, md, im⟩ := fd
  cases k <;> simp [Textual.GetFieldValueRenderer, Kind.String] at hk ⊢

/-- C6 at a concrete input: a bool field on a registry built by NewTextual. -/
theorem GetFieldValueRenderer_other_kinds_witness :
    (Textual.GetFieldValueRenderer ⟨1⟩ (NewTextual ⟨0⟩ none) (plainField Kind.BoolKind)).1 = none ∧
    (Textual.GetFieldValueRenderer ⟨1⟩ (NewTextual ⟨0⟩ none) (plainField Kind.BoolKind)).2
      = some ⟨"value renderers cannot format value of type " ++ "bool"⟩ :=
  (GetFieldValueRenderer_other_kinds ⟨1⟩ (NewTextual ⟨0⟩ none) (plainField Kind.BoolKind)
    (by decide)).2

/-! ## GetFieldValueRenderer: strings, bytes, enums, messages -/

/-- C7: a string-kind field with a non-empty named-scalar annotation s for which the
scalar map holds a (non-nil) renderer resolves to exactly that renderer, with
no error; on a registry built by NewTextual the annotation cosmos.Int gives
the Int renderer and cosmos.Dec the Decimal renderer. -/
theorem GetFieldValueRenderer_scalar (self : TextualPtr) :
    (∀ (r : Textual) (fd : FieldDescriptor) (s : String) (vr : Renderer),
      fd.Kind = Kind.StringKind → fd.Scalar = ExtensionValue.str s → s ≠ "" →
      (r.scalars.get s).1 = some vr →
      Textual.GetFieldValueRenderer self r fd = (some vr, none)) ∧
    (∀ (built : TextualPtr) (q : CoinMetadataQueryFn) (fd : FieldDescriptor),
      fd.Kind = Kind.StringKind →
      (fd.Scalar = ExtensionValue.str "cosmos.Int" →
        Textual.GetFieldValueRenderer self (NewTextual built q) fd
          = (some NewIntValueRenderer, none)) ∧
      (fd.Scalar = ExtensionValue.str "cosmos.Dec" →
        Textual.GetFieldValueRenderer self (NewTextual built q) fd
          = (some NewDecValueRenderer, none))) := by
  have gen : ∀ (r : Textual) (fd : FieldDescriptor) (s : String) (vr : Renderer),
      fd.Kind = Kind.StringKind → fd.Scalar = ExtensionValue.str s → s ≠ "" →
      (r.scalars.get s).1 = some vr →
      Textual.GetFieldValueRenderer self r fd = (some vr, none) := by
    intro r fd s vr hk hs hne hvr
    simp [Textual.GetFieldValueRenderer, hk, hs, hne, hvr]
  refine ⟨gen, ?_⟩
  intro built q fd hk
  constructor
  · intro hs
    exact gen (NewTextual built q) fd "cosmos.Int" NewIntValueRenderer hk hs (by decide) rfl
  · intro hs
    exact gen (NewTextual built q) fd "cosmos.Dec" NewDecValueRenderer hk hs (by decide) rfl

/-- C7 at concrete inputs: a cosmos.Dec field on a registry built by NewTextual, by
the general rule and by the rule for the defaults. -/
theorem GetFieldValueRenderer_scalar_witness :
    Textual.GetFieldValueRenderer ⟨1⟩ (NewTextual ⟨0⟩ none) (scalarField "cosmos.Dec")
        = (some NewDecValueRenderer, none) ∧
    Textual.GetFieldValueRenderer ⟨1⟩ (NewTextual ⟨0⟩ none) (scalarField "cosmos.Int")
        = (some NewIntValueRenderer, none) :=
  ⟨(GetFieldValueRenderer_scalar ⟨1⟩).1 (NewTextual ⟨0⟩ none) (scalarField "cosmos.Dec")
      "cosmos.Dec" NewDecValueRenderer rfl rfl (by decide) rfl,
   ((GetFieldValueRenderer_scalar ⟨1⟩).2 ⟨0⟩ none (scalarField "cosmos.Int") rfl).1 rfl⟩

/-- C8: a string-kind field whose scalar annotation is a string that is empty or has
no entry in the scalar map resolves to the generic String renderer with no
error; and a string-kind field with a string-typed annotation never reaches
the error branch: the call returns a renderer and no error. -/
theorem GetFieldValueRenderer_string_fallback (self : TextualPtr) (r : Textual)
    (fd : FieldDescriptor) (s : String)
    (hk : fd.Kind = Kind.StringKind) (hs : fd.Scalar = ExtensionValue.str s) :
    ((s = "" ∨ (r.scalars.get s).2 = false) →
      Textual.GetFieldValueRenderer self r fd = (some NewStringValueRenderer, none)) ∧
    (Textual.GetFieldValueRenderer self r fd).2 = none ∧
    (Textual.GetFieldValueRenderer self r fd).1 ≠ none := by
  refine ⟨?_, ?_, ?_⟩
  · rintro (he | hnf)
    · simp [Textual.GetFieldValueRenderer, hk, hs, he]
    · have hnil := RendererMap.get_not_found r.scalars s hnf
      by_cases he : s = ""
      · simp [Textual.GetFieldValueRenderer, hk, hs, he]
      · simp [Textual.GetFieldValueRenderer, hk, hs, he, hnil]
  · by_cases he : s = ""
    · simp [Textual.GetFieldValueRenderer, hk, hs, he]
    · cases hv : (r.scalars.get s).1 <;>
        simp [Textual.GetFieldValueRenderer, hk, hs, he, hv]
  · by_cases he : s = ""
    · simp [Textual.GetFieldValueRenderer, hk, hs, he]
    · cases hv : (r.scalars.get s).1 <;>
        simp [Textual.GetFieldValueRenderer, hk, hs, he, hv]

/-- C8 at a concrete input: an annotation that the registry built by NewTextual
does not know. -/
theorem GetFieldValueRenderer_string_fallback_witness :
    Textual.GetFieldValueRenderer ⟨1⟩ (NewTextual ⟨0⟩ none) (scalarField "cosmos.AddressString")
      = (some NewStringValueRenderer, none) :=
  (GetFieldValueRenderer_string_fallback ⟨1⟩ (NewTextual ⟨0⟩ none)
    (scalarField "cosmos.AddressString") "cosmos.AddressString" rfl rfl).1 (Or.inr rfl)

/-- C9: a bytes-kind field resolves to the Bytes renderer and an enum-kind field to
the Enum renderer built over that same field descriptor, with no error; the
outcome is the same on every registry and for every receiver address, so
neither map is consulted. -/
theorem GetFieldValueRenderer_bytes_enum (self : TextualPtr) (r : Textual)
    (fd : FieldDescriptor) :
    (fd.Kind = Kind.BytesKind →
      Textual.GetFieldValueRenderer self r fd = (some NewBytesValueRenderer, none)) ∧
    (fd.Kind = Kind.EnumKind →
      Textual.GetFieldValueRenderer self r fd = (some (NewEnumValueRenderer fd), none)) ∧
    (fd.Kind = Kind.BytesKind ∨ fd.Kind = Kind.EnumKind →
      ∀ (self' : TextualPtr) (r' : Textual),
        Textual.GetFieldValueRenderer self' r' fd = Textual.GetFieldValueRenderer self r fd) := by
  refine ⟨?_, ?_, ?_⟩
  · intro hk
    simp [Textual.GetFieldValueRenderer, hk]
  · intro hk
    simp [Textual.GetFieldValueRenderer, hk]
  · rintro (hk | hk) self' r' <;> simp [Textual.GetFieldValueRenderer, hk]

/-- C9 at concrete inputs: a bytes field on a registry built by NewTextual and an
enum field on a registry with nil maps. -/
theorem GetFieldValueRenderer_bytes_enum_witness :
    Textual.GetFieldValueRenderer ⟨1⟩ (NewTextual ⟨0⟩ none) (plainField Kind.BytesKind)
        = (some NewBytesValueRenderer, none) ∧
    Textual.GetFieldValueRenderer ⟨1⟩ ⟨none, none, none⟩ (plainField Kind.EnumKind)
        = (some (NewEnumValueRenderer (plainField Kind.EnumKind)), none) :=
  ⟨(GetFieldValueRenderer_bytes_enum ⟨1⟩ (NewTextual ⟨0⟩ none)
      (plainField Kind.BytesKind)).1 rfl,
   (GetFieldValueRenderer_bytes_enum ⟨1⟩ ⟨none, none, none⟩
      (plainField Kind.EnumKind)).2.1 rfl⟩

/-- C10: a message-kind field whose message full name has an entry in the composite
map resolves to exactly that entry, with no error; on a registry built by
NewTextual the composite map has an entry for exactly the five names of Coin,
Duration, Timestamp, Any and TextualData, so a field of one of those types
never gets a generic Message renderer. -/
theorem GetFieldValueRenderer_composite (self : TextualPtr) :
    (∀ (r : Textual) (fd : FieldDescriptor),
      fd.Kind = Kind.MessageKind → (r.messages.get fd.Message.FullName).2 = true →
      Textual.GetFieldValueRenderer self r fd = ((r.messages.get fd.Message.FullName).1, none)) ∧
    (∀ (built : TextualPtr) (q : CoinMetadataQueryFn) (name : String),
      ((NewTextual built q).messages.get name).2 = true ↔
        name ∈ [CoinFullName, DurationFullName, TimestampFullName, AnyFullName,
          TextualDataFullName]) ∧
    (∀ (built : TextualPtr) (q : CoinMetadataQueryFn) (fd : FieldDescriptor),
      fd.Kind = Kind.MessageKind →
      fd.Message.FullName ∈ [CoinFullName, DurationFullName, TimestampFullName, AnyFullName,
          TextualDataFullName] →
      (Textual.GetFieldValueRenderer self (NewTextual built q) fd).2 = none ∧
      ∀ (p : TextualPtr) (md : MessageDescriptor),
        (Textual.GetFieldValueRenderer self (NewTextual built q) fd).1
          ≠ some (NewMessageValueRenderer p md)) := by
  have gen : ∀ (r : Textual) (fd : FieldDescriptor),
      fd.Kind = Kind.MessageKind → (r.messages.get fd.Message.FullName).2 = true →
      Textual.GetFieldValueRenderer self r fd
        = ((r.messages.get fd.Message.FullName).1, none) := by
    intro r fd hk hf
    simp [Textual.GetFieldValueRenderer, hk, hf]
  refine ⟨gen, NewTextual_messages_found, ?_⟩
  intro built q fd hk hname
  have hfound := (NewTextual_messages_found built q fd.Message.FullName).mpr hname
  rw [gen (NewTextual built q) fd hk hfound]
  refine ⟨rfl, ?_⟩
  intro p md
  simp only [List.mem_cons, List.mem_singleton, List.not_mem_nil, or_false] at hname
  rcases hname with h | h | h | h | h <;> rw [h] <;> intro hcontra <;> cases hcontra

/-- C10 at concrete inputs: a Coin field and a Timestamp field on a registry built by
NewTextual with a nil querier. -/
theorem GetFieldValueRenderer_composite_witness :
    Textual.GetFieldValueRenderer ⟨1⟩ (NewTextual ⟨0⟩ none) (messageField CoinFullName)
        = (some (NewCoinsValueRenderer none), none) ∧
    (Textual.GetFieldValueRenderer ⟨1⟩ (NewTextual ⟨0⟩ none) (messageField TimestampFullName)).1
        ≠ some (NewMessageValueRenderer ⟨1⟩ ⟨TimestampFullName⟩) :=
  ⟨(GetFieldValueRenderer_composite ⟨1⟩).1 (NewTextual ⟨0⟩ none) (messageField CoinFullName)
      rfl rfl,
   ((GetFieldValueRenderer_composite ⟨1⟩).2.2 ⟨0⟩ none (messageField TimestampFullName)
      rfl (by decide)).2 ⟨1⟩ ⟨TimestampFullName⟩⟩

/-! ## Fallback, purity, registration -/

/-- C11: for a descriptor md whose full name has no entry in the composite map,
GetMessageValueRenderer, and GetFieldValueRenderer on a non-map message-kind
field of type md, return the generic Message renderer built over the receiver
and md, with no error; and GetMessageValueRenderer reports no error for any
descriptor. -/
theorem GetMessageValueRenderer_fallback (self : TextualPtr) (r : Textual) :
    (∀ md : MessageDescriptor, (r.messages.get md.FullName).2 = false →
      Textual.GetMessageValueRenderer self r md
          = (some (NewMessageValueRenderer self md), none) ∧
      ∀ fd : FieldDescriptor, fd.Kind = Kind.MessageKind → fd.Message = md →
        fd.IsMap = false →
        Textual.GetFieldValueRenderer self r fd
          = (some (NewMessageValueRenderer self md), none)) ∧
    (∀ md : MessageDescriptor, (Textual.GetMessageValueRenderer self r md).2 = none) := by
  refine ⟨?_, fun md => GetMessageValueRenderer_err self r md⟩
  intro md hnf
  constructor
  · simp [Textual.GetMessageValueRenderer, hnf]
  · intro fd hk hmd hmap
    subst hmd
    simp [Textual.GetFieldValueRenderer, hk, hnf, hmap]

/-- C11 at concrete inputs: a message type that the registry built by NewTextual
does not know, resolved directly and through a field. -/
theorem GetMessageValueRenderer_fallback_witness :
    Textual.GetMessageValueRenderer ⟨1⟩ (NewTextual ⟨0⟩ none) ⟨"testpb.Foo"⟩
        = (some (NewMessageValueRenderer ⟨1⟩ ⟨"testpb.Foo"⟩), none) ∧
    Textual.GetFieldValueRenderer ⟨1⟩ (NewTextual ⟨0⟩ none) (messageField "testpb.Foo")
        = (some (NewMessageValueRenderer ⟨1⟩ ⟨"testpb.Foo"⟩), none) :=
  ⟨((GetMessageValueRenderer_fallback ⟨1⟩ (NewTextual ⟨0⟩ none)).1 ⟨"testpb.Foo"⟩ rfl).1,
   ((GetMessageValueRenderer_fallback ⟨1⟩ (NewTextual ⟨0⟩ none)).1 ⟨"testpb.Foo"⟩ rfl).2
      (messageField "testpb.Foo") rfl rfl rfl⟩

/-- C12: resolution is a pure lookup.  Run on any registry state, each resolution
method returns what the lookup function returns and leaves the state as it
was: scalar map, composite map and metadata querier are unchanged, on success
and on failure alike. -/
theorem resolution_leaves_registry (self : TextualPtr) (r : Textual) :
    (∀ fd : FieldDescriptor,
      (Textual.GetFieldValueRendererM self fd).run r
        = (Textual.GetFieldValueRenderer self r fd, r)) ∧
    (∀ md : MessageDescriptor,
      (Textual.GetMessageValueRendererM self md).run r
        = (Textual.GetMessageValueRenderer self r md, r)) ∧
    (∀ fd : FieldDescriptor,
      ((Textual.GetFieldValueRendererM self fd).run r).2.scalars = r.scalars ∧
      ((Textual.GetFieldValueRendererM self fd).run r).2.messages = r.messages ∧
      ((Textual.GetFieldValueRendererM self fd).run r).2.coinMetadataQuerier
        = r.coinMetadataQuerier) ∧
    (∀ md : MessageDescriptor,
      ((Textual.GetMessageValueRendererM self md).run r).2.scalars = r.scalars ∧
      ((Textual.GetMessageValueRendererM self md).run r).2.messages = r.messages ∧
      ((Textual.GetMessageValueRendererM self md).run r).2.coinMetadataQuerier
        = r.coinMetadataQuerier) := by
  have hf : ∀ fd : FieldDescriptor,
      (Textual.GetFieldValueRendererM self fd).run r
        = (Textual.GetFieldValueRenderer self r fd, r) := by
    intro fd
    obtain ⟨k, sc, md, im⟩ := fd
    unfold Textual.GetFieldValueRendererM Textual.GetFieldValueRenderer
    simp only [StateT.run, bind, StateT.bind, get, getThe, MonadStateOf.get, StateT.get, pure,
      StateT.pure]
    cases sc <;> dsimp only <;> repeat' split
    all_goals first
      | rfl
      | (simp_all; done)
      | simp [StateT.bind, StateT.get, StateT.pure, *]
  have hm : ∀ md : MessageDescriptor,
      (Textual.GetMessageValueRendererM self md).run r
        = (Textual.GetMessageValueRenderer self r md, r) := by
    intro md
    unfold Textual.GetMessageValueRendererM Textual.GetMessageValueRenderer
    simp only [StateT.run, bind, StateT.bind, get, getThe, MonadStateOf.get, StateT.get, pure,
      StateT.pure]
    split <;> rfl
  refine ⟨hf, hm, ?_, ?_⟩
  · intro fd
    rw [hf fd]
    exact ⟨rfl, rfl, rfl⟩
  · intro md
    rw [hm md]
    exact ⟨rfl, rfl, rfl⟩

/-- The assignment m[k] = v followed by the index expression m[k] gives v. -/
theorem lookup_tableSet (l : List (String × ValueRenderer)) (k : String) (v : ValueRenderer) :
    (tableSet l k v).lookup k = some v := by
  induction l with
  | nil => simp [tableSet, List.lookup]
  | cons hd tl ih =>
    obtain ⟨k', v'⟩ := hd
    unfold tableSet
    by_cases h : k' = k
    · subst h
      simp [List.lookup]
    · have hb : (k' == k) = false := by simpa using h
      have hb' : (k == k') = false := by simpa using fun e : k = k' => h e.symm
      simp [hb, List.lookup, hb', ih]

/-- After init the scalar map is there. -/
theorem init_scalars_isSome (self : TextualPtr) (r : Textual) :
    ∃ l, (Textual.init self r).scalars = some l := by
  unfold Textual.init
  cases hs : r.scalars with
  | none =>
    cases hm : r.messages <;> simp [hs, hm]
  | some l =>
    cases hm : r.messages <;> simp [hs, hm]

/-- C13: after DefineScalar(s, vr) with a non-empty name s and a non-nil renderer vr,
GetFieldValueRenderer on every string-kind field annotated with s returns vr
with no error, whatever the registry was before: one built by NewTextual (a
default under cosmos.Int or cosmos.Dec is replaced) or a zero-value Textual. -/
theorem GetFieldValueRenderer_after_DefineScalar (self caller : TextualPtr) (r : Textual)
    (s : String) (vr : Renderer) (fd : FieldDescriptor)
    (hne : s ≠ "") (hk : fd.Kind = Kind.StringKind) (hs : fd.Scalar = ExtensionValue.str s) :
    Textual.GetFieldValueRenderer caller (Textual.DefineScalar self r s (some vr)) fd
      = (some vr, none) := by
  obtain ⟨l, hl⟩ := init_scalars_isSome self r
  have hget : ((Textual.DefineScalar self r s (some vr)).scalars.get s).1 = some vr := by
    unfold Textual.DefineScalar
    simp only [hl, RendererMap.get, lookup_tableSet]
  simp [Textual.GetFieldValueRenderer, hk, hs, hne, hget]

/-- C13 at concrete inputs: the default under cosmos.Int is replaced on a registry
built by NewTextual, and a zero-value registry takes a new scalar. -/
theorem GetFieldValueRenderer_after_DefineScalar_witness :
    Textual.GetFieldValueRenderer ⟨1⟩
        (Textual.DefineScalar ⟨1⟩ (NewTextual ⟨0⟩ none) "cosmos.Int" (some NewBytesValueRenderer))
        (scalarField "cosmos.Int")
      = (some NewBytesValueRenderer, none) ∧
    Textual.GetFieldValueRenderer ⟨1⟩
        (Textual.DefineScalar ⟨1⟩ ⟨none, none, none⟩ "cosmos.AddressString"
          (some NewBytesValueRenderer))
        (scalarField "cosmos.AddressString")
      = (some NewBytesValueRenderer, none) :=
  ⟨GetFieldValueRenderer_after_DefineScalar ⟨1⟩ ⟨1⟩ (NewTextual ⟨0⟩ none) "cosmos.Int"
      NewBytesValueRenderer (scalarField "cosmos.Int") (by decide) rfl rfl,
   GetFieldValueRenderer_after_DefineScalar ⟨1⟩ ⟨1⟩ ⟨none, none, none⟩ "cosmos.AddressString"
      NewBytesValueRenderer (scalarField "cosmos.AddressString") (by decide) rfl rfl⟩

/-! ## DefineScalar and init -/

/-- The assignment m[k] = v leaves the index expression m[t] for every other key t
as it was. -/
theorem lookup_tableSet_ne (l : List (String × ValueRenderer)) (k t : String)
    (v : ValueRenderer) (h : t ≠ k) : (tableSet l k v).lookup t = l.lookup t := by
  have htk : (t == k) = false := by simpa using h
  induction l with
  | nil => simp [tableSet, List.lookup, htk]
  | cons hd tl ih =>
    obtain ⟨k', v'⟩ := hd
    unfold tableSet
    by_cases hk : k' = k
    · subst hk
      simp [List.lookup, htk]
    · have hb : (k' == k) = false := by simpa using hk
      simp only [hb, Bool.false_eq_true, if_false, List.lookup, ih]

/-- After init the composite map is there. -/
theorem init_messages_isSome (self : TextualPtr) (r : Textual) :
    ∃ l, (Textual.init self r).messages = some l := by
  unfold Textual.init
  cases hs : r.scalars with
  | none =>
    cases hm : r.messages <;> simp [hs, hm]
  | some l =>
    cases hm : r.messages <;> simp [hs, hm]

/-- On a registry whose two maps are there, init changes nothing. -/
theorem init_of_initialised (self : TextualPtr) (r : Textual)
    (hs : r.scalars.isSome = true) (hm : r.messages.isSome = true) :
    Textual.init self r = r := by
  obtain ⟨q, sc, ms⟩ := r
  cases sc with
  | none => simp at hs
  | some l =>
    cases ms with
    | none => simp at hm
    | some l' => simp [Textual.init]

/-- The method init leaves the metadata querier as it was. -/
theorem init_querier (self : TextualPtr) (r : Textual) :
    (Textual.init self r).coinMetadataQuerier = r.coinMetadataQuerier := by
  unfold Textual.init
  cases hs : r.scalars with
  | none =>
    cases hm : r.messages <;> simp [hs, hm]
  | some l =>
    cases hm : r.messages <;> simp [hs, hm]

/-- What DefineScalar returns, in terms of the registry after init. -/
theorem DefineScalar_eq (self : TextualPtr) (r : Textual) (s : String) (vr : ValueRenderer)
    (l : List (String × ValueRenderer)) (hl : (Textual.init self r).scalars = some l) :
    Textual.DefineScalar self r s vr
      = { Textual.init self r with scalars := some (tableSet l s vr) } := by
  unfold Textual.DefineScalar
  simp only [hl]

/-- C24, as stated, fails: on a zero-value registry DefineScalar does more than set
the entry for its scalar: the init call inside it creates the composite map
with its five entries and puts the defaults cosmos.Int and cosmos.Dec into the
scalar map, so that a field annotated cosmos.Int resolves to the String
renderer before the call and to the Int renderer after it. -/
theorem DefineScalar_zero_value_changes_more :
    (⟨none, none, none⟩ : Textual).messages = none ∧
    (Textual.DefineScalar ⟨1⟩ ⟨none, none, none⟩ "cosmos.AddressString"
        (some NewBytesValueRenderer)).messages
      = some [(CoinFullName, some (NewCoinsValueRenderer none)),
          (DurationFullName, some NewDurationValueRenderer),
          (TimestampFullName, some NewTimestampValueRenderer),
          (AnyFullName, some (NewAnyValueRenderer ⟨1⟩)),
          (TextualDataFullName, some (NewTxValueRenderer ⟨1⟩))] ∧
    (⟨none, none, none⟩ : Textual).scalars.get "cosmos.Int" = (none, false) ∧
    (Textual.DefineScalar ⟨1⟩ ⟨none, none, none⟩ "cosmos.AddressString"
        (some NewBytesValueRenderer)).scalars.get "cosmos.Int"
      = (some NewIntValueRenderer, true) ∧
    Textual.GetFieldValueRenderer ⟨1⟩ ⟨none, none, none⟩ (scalarField "cosmos.Int")
      = (some NewStringValueRenderer, none) ∧
    Textual.GetFieldValueRenderer ⟨1⟩
        (Textual.DefineScalar ⟨1⟩ ⟨none, none, none⟩ "cosmos.AddressString"
          (some NewBytesValueRenderer))
        (scalarField "cosmos.Int")
      = (some NewIntValueRenderer, none) := by
  refine ⟨rfl, rfl, rfl, rfl, rfl, rfl⟩

/-- C24, amended: compared with the registry after init, DefineScalar(s, vr) changes
only the scalar-map entry for s: every other scalar entry and the whole
composite map are those of the registry after init, and the metadata querier
is that of the registry before.  On a registry whose two maps are already
there init changes nothing, so there DefineScalar changes only the entry for
s; in particular an earlier override of cosmos.Int is still in place after a
DefineScalar of another scalar.  The method init is idempotent. -/
theorem DefineScalar_frame (self : TextualPtr) (r : Textual) (s : String)
    (vr : ValueRenderer) :
    (∀ t : String, t ≠ s →
      (Textual.DefineScalar self r s vr).scalars.get t = (Textual.init self r).scalars.get t) ∧
    (Textual.DefineScalar self r s vr).messages = (Textual.init self r).messages ∧
    (Textual.DefineScalar self r s vr).coinMetadataQuerier = r.coinMetadataQuerier ∧
    (r.scalars.isSome = true → r.messages.isSome = true →
      Textual.init self r = r ∧
      (∀ t : String, t ≠ s →
        (Textual.DefineScalar self r s vr).scalars.get t = r.scalars.get t) ∧
      (Textual.DefineScalar self r s vr).messages = r.messages) ∧
    (∀ self' : TextualPtr,
      Textual.init self' (Textual.init self r) = Textual.init self r) ∧
    (∀ (x y : ValueRenderer) (t : String), t ≠ "cosmos.Int" →
      (Textual.DefineScalar self (Textual.DefineScalar self r "cosmos.Int" x) t y).scalars.get
          "cosmos.Int" = (x, true)) := by
  obtain ⟨l, hl⟩ := init_scalars_isSome self r
  obtain ⟨lm, hlm⟩ := init_messages_isSome self r
  have hscal : ∀ t : String, t ≠ s →
      (Textual.DefineScalar self r s vr).scalars.get t = (Textual.init self r).scalars.get t := by
    intro t ht
    rw [DefineScalar_eq self r s vr l hl, hl]
    simp only [RendererMap.get, lookup_tableSet_ne l s t vr ht]
  have hmsg : (Textual.DefineScalar self r s vr).messages = (Textual.init self r).messages := by
    rw [DefineScalar_eq self r s vr l hl]
  have hidem : ∀ self' : TextualPtr,
      Textual.init self' (Textual.init self r) = Textual.init self r := by
    intro self'
    apply init_of_initialised
    · rw [hl]; rfl
    · rw [hlm]; rfl
  refine ⟨hscal, hmsg, ?_, ?_, hidem, ?_⟩
  · rw [DefineScalar_eq self r s vr l hl]
    exact init_querier self r
  · intro hs hm
    have hinit := init_of_initialised self r hs hm
    refine ⟨hinit, ?_, ?_⟩
    · intro t ht
      rw [hscal t ht, hinit]
    · rw [hmsg, hinit]
  · intro x y t ht
    have h1 := DefineScalar_eq self r "cosmos.Int" x l hl
    have hinit2 : Textual.init self (Textual.DefineScalar self r "cosmos.Int" x)
        = Textual.DefineScalar self r "cosmos.Int" x := by
      apply init_of_initialised
      · rw [h1]; rfl
      · rw [h1]
        show (Textual.init self r).messages.isSome = true
        rw [hlm]; rfl
    have hl2 : (Textual.init self (Textual.DefineScalar self r "cosmos.Int" x)).scalars
        = some (tableSet l "cosmos.Int" x) := by
      rw [hinit2, h1]
    rw [DefineScalar_eq self _ t y _ hl2]
    simp only [RendererMap.get]
    rw [lookup_tableSet_ne _ t "cosmos.Int" y (fun h => ht h.symm), lookup_tableSet]

/-- C24, amended, at concrete inputs: on a registry built by NewTextual, cosmos.Int
is overridden and then another scalar is defined; cosmos.Int still maps to the
override, cosmos.Dec keeps its default and the composite map is that of
NewTextual. -/
theorem DefineScalar_frame_witness :
    (Textual.DefineScalar ⟨1⟩
        (Textual.DefineScalar ⟨1⟩ (NewTextual ⟨0⟩ none) "cosmos.Int" (some NewBytesValueRenderer))
        "cosmos.AddressString" (some NewStringValueRenderer)).scalars.get "cosmos.Int"
      = (some NewBytesValueRenderer, true) ∧
    (Textual.DefineScalar ⟨1⟩ (NewTextual ⟨0⟩ none) "cosmos.Int"
        (some NewBytesValueRenderer)).scalars.get "cosmos.Dec"
      = (NewTextual ⟨0⟩ none).scalars.get "cosmos.Dec" ∧
    (Textual.DefineScalar ⟨1⟩ (NewTextual ⟨0⟩ none) "cosmos.Int"
        (some NewBytesValueRenderer)).messages
      = (NewTextual ⟨0⟩ none).messages :=
  ⟨(DefineScalar_frame ⟨1⟩ (NewTextual ⟨0⟩ none) "cosmos.Int" (some NewBytesValueRenderer)).2.2.2.2.2
      (some NewBytesValueRenderer) (some NewStringValueRenderer) "cosmos.AddressString"
      (by decide),
   ((DefineScalar_frame ⟨1⟩ (NewTextual ⟨0⟩ none) "cosmos.Int"
      (some NewBytesValueRenderer)).2.2.2.1 rfl rfl).2.1 "cosmos.Dec" (by decide),
   ((DefineScalar_frame ⟨1⟩ (NewTextual ⟨0⟩ none) "cosmos.Int"
      (some NewBytesValueRenderer)).2.2.2.1 rfl rfl).2.2⟩

end valuerenderer

/-! # Theorems on the Amino JSON marshaller -/

namespace aminojson

/-! ## Shared lemmas -/

/-- The message case of marshal is marshalMessage. -/
theorem marshal_message {σ : Type} (lib : Stdlib) (w : Writer σ) (fields : List (Field Value))
    (field : Option FieldDescriptor) (st : σ) :
    marshal lib w (.message fields) field st = marshalMessage lib w fields st := by
  rw [marshal, marshalMessage]

/-- The list case of marshal is marshalList. -/
theorem marshal_list {σ : Type} (lib : Stdlib) (w : Writer σ) (elems : List Value)
    (field : Option FieldDescriptor) (st : σ) :
    marshal lib w (.list elems) field st = marshalList lib w field elems st := by
  rw [marshal, marshalList]

/-- The body of marshalMessage as a chain of checked steps. -/
theorem marshalMessage_eq {σ : Type} (lib : Stdlib) (w : Writer σ) (fields : List (Field Value))
    (st : σ) :
    marshalMessage lib w fields st =
      andThen (w.Write st "\x7b") fun st1 =>
      andThen (marshalMessageLoop lib w fields true st1) fun st2 =>
      andThen (w.Write st2 "\x7d") fun st3 => (st3, none) := by
  simp only [marshalMessage, andThen]

/-- The body of marshalList as a chain of checked steps. -/
theorem marshalList_eq {σ : Type} (lib : Stdlib) (w : Writer σ)
    (field : Option FieldDescriptor) (elems : List Value) (st : σ) :
    marshalList lib w field elems st =
      andThen (w.Write st "[") fun st1 =>
      andThen (marshalListLoop lib w field elems true st1) fun st2 =>
      w.Write st2 "]" := by
  simp only [marshalList, andThen]

/-- One round of the loop of marshalMessage as a chain of checked steps. -/
theorem marshalMessageLoop_cons {σ : Type} (lib : Stdlib) (w : Writer σ) (f : Field Value)
    (rest : List (Field Value)) (first : Bool) (st : σ) :
    marshalMessageLoop lib w (f :: rest) first st =
      if f.Has then
        andThen (if !first then w.Write st "," else (st, none)) fun st1 =>
        andThen (invokeStdlibJSONMarshal lib w st1 (.string f.Name)) fun st2 =>
        andThen (w.Write st2 ":") fun st3 =>
        andThen (marshal lib w f.Get (some ⟨f.Name⟩) st3) fun st4 =>
        marshalMessageLoop lib w rest false st4
      else marshalMessageLoop lib w rest first st := by
  simp only [marshalMessageLoop, andThen]
  repeat' split
  all_goals simp_all

/-- One round of the loop of marshalList as a chain of checked steps. -/
theorem marshalListLoop_cons {σ : Type} (lib : Stdlib) (w : Writer σ)
    (field : Option FieldDescriptor) (v : Value) (rest : List Value) (first : Bool) (st : σ) :
    marshalListLoop lib w field (v :: rest) first st =
      andThen (if !first then w.Write st "," else (st, none)) fun st1 =>
      andThen (marshal lib w v field st1) fun st2 =>
      marshalListLoop lib w field rest false st2 := by
  simp only [marshalListLoop, andThen]

/-- A single Write extends the buffer. -/
theorem Extends.write (p : String) : Extends (fun buf => bytesBuffer.Write buf p) := by
  intro buf
  simp [bytesBuffer]

/-- Writing nothing extends the buffer. -/
theorem Extends.skip : Extends (fun buf => (buf, none)) := by
  intro buf
  simp

/-- Stopping with an error extends the buffer. -/
theorem Extends.fail (e : error) : Extends (fun buf => (buf, some e)) := by
  intro buf
  simp

/-- Two checked steps in sequence extend the buffer when each does. -/
theorem Extends.andThen {f g : String → String × Option error} (hf : Extends f)
    (hg : Extends g) : Extends (fun buf => andThen (f buf) g) := by
  intro buf
  beta_reduce
  rw [hf buf]
  cases h0 : f "" with
  | mk out err =>
    cases err with
    | some e => rfl
    | none =>
      simp only [aminojson.andThen]
      rw [hg (buf ++ out), hg out, String.append_assoc]

/-- The separator step of the two loops extends the buffer. -/
theorem Extends.separator (first : Bool) :
    Extends (fun buf => if !first then bytesBuffer.Write buf "," else (buf, none)) := by
  cases first
  · exact Extends.write ","
  · exact Extends.skip

/-- The function invokeStdlibJSONMarshal extends the buffer. -/
theorem Extends.json (lib : Stdlib) (v : StdValue) :
    Extends (fun buf => invokeStdlibJSONMarshal lib bytesBuffer buf v) := by
  intro buf
  simp only [invokeStdlibJSONMarshal]
  cases h : lib.jsonMarshal v with
  | mk blob err =>
    cases err with
    | some e => simp
    | none => simp [bytesBuffer]

mutual
/-- Marshalling a value into a bytes.Buffer extends the buffer. -/
theorem marshal_extends (lib : Stdlib) :
    ∀ (v : Value) (field : Option FieldDescriptor), Extends (marshal lib bytesBuffer v field)
  | .message fields, field => by
    have h := Extends.andThen (Extends.write "\x7b")
      (Extends.andThen (marshalMessageLoop_extends lib fields true)
        (Extends.andThen (Extends.write "\x7d") Extends.skip))
    intro buf
    simp only [marshal_message, marshalMessage_eq]
    exact h buf
  | .map, field => by
    intro buf
    simp [marshal]
  | .list elems, field => by
    have h := Extends.andThen (Extends.write "[")
      (Extends.andThen (marshalListLoop_extends lib field elems true) (Extends.write "]"))
    intro buf
    simp only [marshal_list, marshalList_eq]
    exact h buf
  | .string s, field => by
    intro buf; simp only [marshal]; exact Extends.json lib _ buf
  | .bool b, field => by
    intro buf; simp only [marshal]; exact Extends.json lib _ buf
  | .int32 n, field => by
    intro buf; simp only [marshal]; exact Extends.json lib _ buf
  | .uint32 n, field => by
    intro buf; simp only [marshal]; exact Extends.json lib _ buf
  | .enumNumber n, field => by
    intro buf; simp only [marshal]; exact Extends.json lib _ buf
  | .uint64 n, field => by
    intro buf; simp only [marshal]; exact Extends.write _ buf
  | .int64 n, field => by
    intro buf; simp only [marshal]; exact Extends.write _ buf
  | .bytes b, field => by
    intro buf; simp only [marshal]; exact Extends.write _ buf
  | .float32 _, field => by
    intro buf; simp [marshal]
  | .float64 _, field => by
    intro buf; simp [marshal]
/-- The loop of marshalMessage extends the buffer. -/
theorem marshalMessageLoop_extends (lib : Stdlib) :
    ∀ (fields : List (Field Value)) (first : Bool),
      Extends (marshalMessageLoop lib bytesBuffer fields first)
  | [], first => by
    intro buf
    simp [marshalMessageLoop]
  | f :: rest, first => by
    cases hHas : f.Has with
    | false =>
      intro buf
      simp only [marshalMessageLoop_cons, hHas]
      exact marshalMessageLoop_extends lib rest first buf
    | true =>
      have h := Extends.andThen (Extends.separator first)
        (Extends.andThen (Extends.json lib (.string f.Name))
          (Extends.andThen (Extends.write ":")
            (Extends.andThen (marshal_extends lib f.Get (some ⟨f.Name⟩))
              (marshalMessageLoop_extends lib rest false))))
      intro buf
      simp only [marshalMessageLoop_cons, hHas]
      exact h buf
/-- The loop of marshalList extends the buffer. -/
theorem marshalListLoop_extends (lib : Stdlib) :
    ∀ (field : Option FieldDescriptor) (elems : List Value) (first : Bool),
      Extends (marshalListLoop lib bytesBuffer field elems first)
  | field, [], first => by
    intro buf
    simp [marshalListLoop]
  | field, v :: rest, first => by
    have h := Extends.andThen (Extends.separator first)
      (Extends.andThen (marshal_extends lib v field) (marshalListLoop_extends lib field rest false))
    intro buf
    simp only [marshalListLoop_cons]
    exact h buf
end

/-- A checked step after a step without error runs on the state that step left. -/
theorem andThen_ok {σ : Type} (r : σ × Option error) (k : σ → σ × Option error)
    (h : r.2 = none) : andThen r k = k r.1 := by
  obtain ⟨st, e⟩ := r
  dsimp only at h
  subst h
  rfl

/-- A checked step after a failed step is not run. -/
theorem andThen_err {σ : Type} (r : σ × Option error) (k : σ → σ × Option error) (e : error)
    (h : r.2 = some e) : andThen r k = (r.1, some e) := by
  obtain ⟨st, e'⟩ := r
  dsimp only at h
  subst h
  rfl

/-- The text printed by %d is the standard decimal rendering of the integer. -/
theorem fmtD_eq_toString (n : Int) : fmtD n = toString n := by
  cases n with
  | ofNat m =>
    have h : ¬ (Int.ofNat m < 0) := by simp
    simp only [fmtD, h, if_false]
    rfl
  | negSucc m =>
    have h : Int.negSucc m < 0 := Int.negSucc_lt_zero m
    simp only [fmtD, h, if_true]
    rfl

/-! ## Scalars -/

/-- C16: for every int64 and every uint64 value n, marshal makes one Write of the
decimal digits of n (after a minus sign when n is negative) between two double
quotes and returns what that Write returns; into a bytes.Buffer, which is what
MarshalAmino writes to, exactly that text is appended and no error is
reported. -/
theorem marshal_int64_uint64 (lib : Stdlib) (field : Option FieldDescriptor) :
    (∀ (σ : Type) (w : Writer σ) (st : σ) (n : Int),
      marshal lib w (.int64 n) field st
        = w.Write st ("\"" ++ (if n < 0 then "-" ++ Nat.repr n.natAbs else Nat.repr n.natAbs)
            ++ "\"")) ∧
    (∀ (σ : Type) (w : Writer σ) (st : σ) (n : Nat),
      marshal lib w (.uint64 n) field st = w.Write st ("\"" ++ Nat.repr n ++ "\"")) ∧
    (∀ (buf : String) (n : Int),
      marshal lib bytesBuffer (.int64 n) field buf = (buf ++ "\"" ++ toString n ++ "\"", none)) ∧
    (∀ (buf : String) (n : Nat),
      marshal lib bytesBuffer (.uint64 n) field buf
        = (buf ++ "\"" ++ toString n ++ "\"", none)) := by
  refine ⟨?_, ?_, ?_, ?_⟩
  · intro σ w st n
    simp only [marshal, fmtD]
  · intro σ w st n
    have h : ¬ ((n : Int) < 0) := by simp
    simp only [marshal, fmtD, h, if_false, Int.natAbs_ofNat]
  · intro buf n
    simp only [marshal, fmtD_eq_toString, bytesBuffer, String.append_assoc]
  · intro buf n
    simp only [marshal, fmtD_eq_toString, bytesBuffer, String.append_assoc]
    rfl

/-- C16 at concrete inputs: the least int64 and the greatest uint64, written into an
empty bytes.Buffer. -/
theorem marshal_int64_uint64_witness :
    marshal sampleStdlib bytesBuffer (.int64 (-9223372036854775808)) none ""
        = ("\"-9223372036854775808\"", none) ∧
    marshal sampleStdlib bytesBuffer (.uint64 18446744073709551615) none ""
        = ("\"18446744073709551615\"", none) :=
  ⟨(marshal_int64_uint64 sampleStdlib none).2.2.1 "" (-9223372036854775808),
   (marshal_int64_uint64 sampleStdlib none).2.2.2 "" 18446744073709551615⟩

/-! ## Maps -/

/-- A Write to a bytes.Buffer reports no error. -/
theorem bytesBuffer_write_ok (buf p : String) : (bytesBuffer.Write buf p).2 = none := rfl

/-- The separator step on a bytes.Buffer reports no error. -/
theorem separator_ok (first : Bool) (buf : String) :
    (if !first then bytesBuffer.Write buf "," else (buf, none)).2 = none := by
  cases first <;> rfl

/-- When json.Marshal succeeds, invokeStdlibJSONMarshal into a bytes.Buffer appends
the blob and reports no error. -/
theorem invokeStdlibJSONMarshal_ok (lib : Stdlib) (buf : String) (v : StdValue)
    (h : (lib.jsonMarshal v).2 = none) :
    invokeStdlibJSONMarshal lib bytesBuffer buf v = (buf ++ (lib.jsonMarshal v).1, none) := by
  unfold invokeStdlibJSONMarshal
  cases hj : lib.jsonMarshal v with
  | mk blob err =>
    rw [hj] at h
    dsimp only at h
    subst h
    rfl

mutual
/-- With a json.Marshal that does not fail, marshalling into a bytes.Buffer reports
the error about maps when the value reaches a map, and no error otherwise. -/
theorem marshal_error (lib : Stdlib) (hjson : ∀ v, (lib.jsonMarshal v).2 = none) :
    ∀ (v : Value) (field : Option FieldDescriptor) (buf : String),
      (marshal lib bytesBuffer v field buf).2
        = if v.reachesMap then some ⟨"maps are not supported"⟩ else none
  | .message fields, field, buf => by
    have ih := marshalMessageLoop_error lib hjson fields true (bytesBuffer.Write buf "\x7b").1
    simp only [marshal_message, marshalMessage_eq, Value.reachesMap]
    rw [andThen_ok _ _ (bytesBuffer_write_ok buf "\x7b")]
    by_cases hr : fieldsReachMap fields = true
    · rw [if_pos hr] at ih
      rw [andThen_err _ _ _ ih, if_pos hr]
    · rw [if_neg hr] at ih
      rw [andThen_ok _ _ ih, andThen_ok _ _ (bytesBuffer_write_ok _ "\x7d"), if_neg hr]
  | .map, field, buf => by simp [marshal, Value.reachesMap]
  | .list elems, field, buf => by
    have ih := marshalListLoop_error lib hjson field elems true (bytesBuffer.Write buf "[").1
    simp only [marshal_list, marshalList_eq, Value.reachesMap]
    rw [andThen_ok _ _ (bytesBuffer_write_ok buf "[")]
    by_cases hr : elemsReachMap elems = true
    · rw [if_pos hr] at ih
      rw [andThen_err _ _ _ ih, if_pos hr]
    · rw [if_neg hr] at ih
      rw [andThen_ok _ _ ih, if_neg hr]
      rfl
  | .string s, field, buf => by
    simp [marshal, Value.reachesMap, invokeStdlibJSONMarshal_ok, hjson]
  | .bool b, field, buf => by
    simp [marshal, Value.reachesMap, invokeStdlibJSONMarshal_ok, hjson]
  | .int32 n, field, buf => by
    simp [marshal, Value.reachesMap, invokeStdlibJSONMarshal_ok, hjson]
  | .uint32 n, field, buf => by
    simp [marshal, Value.reachesMap, invokeStdlibJSONMarshal_ok, hjson]
  | .enumNumber n, field, buf => by
    simp [marshal, Value.reachesMap, invokeStdlibJSONMarshal_ok, hjson]
  | .uint64 n, field, buf => by simp [marshal, Value.reachesMap, bytesBuffer]
  | .int64 n, field, buf => by simp [marshal, Value.reachesMap, bytesBuffer]
  | .bytes b, field, buf => by simp [marshal, Value.reachesMap, bytesBuffer]
  | .float32 _, field, buf => by simp [marshal, Value.reachesMap]
  | .float64 _, field, buf => by simp [marshal, Value.reachesMap]
/-- The error of the loop of marshalMessage, as for marshal. -/
theorem marshalMessageLoop_error (lib : Stdlib) (hjson : ∀ v, (lib.jsonMarshal v).2 = none) :
    ∀ (fields : List (Field Value)) (first : Bool) (buf : String),
      (marshalMessageLoop lib bytesBuffer fields first buf).2
        = if fieldsReachMap fields then some ⟨"maps are not supported"⟩ else none
  | [], first, buf => by simp [marshalMessageLoop, fieldsReachMap]
  | f :: rest, first, buf => by
    cases hHas : f.Has with
    | false =>
      have ih := marshalMessageLoop_error lib hjson rest first buf
      simp only [marshalMessageLoop_cons, fieldsReachMap, hHas, Bool.false_and, Bool.false_or]
      simpa using ih
    | true =>
      simp only [marshalMessageLoop_cons, fieldsReachMap, hHas, if_true, Bool.true_and]
      rw [andThen_ok _ _ (separator_ok first buf),
        invokeStdlibJSONMarshal_ok lib _ _ (hjson _)]
      rw [andThen_ok _ _ rfl, andThen_ok _ _ (bytesBuffer_write_ok _ ":")]
      have ihv := marshal_error lib hjson f.Get (some ⟨f.Name⟩)
      have h1 := ihv (bytesBuffer.Write
        ((if !first then bytesBuffer.Write buf "," else (buf, none)).1
          ++ (lib.jsonMarshal (.string f.Name)).1, (none : Option error)).1 ":").1
      by_cases hr : f.Get.reachesMap = true
      · rw [if_pos hr] at h1
        rw [andThen_err _ _ _ h1]
        simp [hr]
      · rw [if_neg hr] at h1
        rw [andThen_ok _ _ h1]
        have ih := marshalMessageLoop_error lib hjson rest false
        simpa [hr] using ih _
/-- The error of the loop of marshalList, as for marshal. -/
theorem marshalListLoop_error (lib : Stdlib) (hjson : ∀ v, (lib.jsonMarshal v).2 = none) :
    ∀ (field : Option FieldDescriptor) (elems : List Value) (first : Bool) (buf : String),
      (marshalListLoop lib bytesBuffer field elems first buf).2
        = if elemsReachMap elems then some ⟨"maps are not supported"⟩ else none
  | field, [], first, buf => by simp [marshalListLoop, elemsReachMap]
  | field, v :: rest, first, buf => by
    simp only [marshalListLoop_cons, elemsReachMap]
    rw [andThen_ok _ _ (separator_ok first buf)]
    have ihv := marshal_error lib hjson v field
      (if !first then bytesBuffer.Write buf "," else (buf, none)).1
    by_cases hr : v.reachesMap = true
    · rw [if_pos hr] at ihv
      rw [andThen_err _ _ _ ihv]
      simp [hr]
    · rw [if_neg hr] at ihv
      rw [andThen_ok _ _ ihv]
      have ih := marshalListLoop_error lib hjson field rest false
      simpa [hr] using ih _
end

/-- C17: for every message that has a present map-typed field, directly or inside a
present nested message or list element, MarshalAmino returns the error "maps
are not supported" (json.Marshal, as in the standard library, not failing on
the names and scalars it is given). -/
theorem MarshalAmino_map_error (lib : Stdlib) (hjson : ∀ v, (lib.jsonMarshal v).2 = none)
    (message : List (Field Value)) (hmap : fieldsReachMap message = true) :
    (MarshalAmino lib message).2 = some ⟨"maps are not supported"⟩ := by
  unfold MarshalAmino
  rw [marshal_error lib hjson (.message message) none ""]
  simp [Value.reachesMap, hmap]

/-- C17 at a concrete input: the map sits in a present nested message, after a
present string field. -/
theorem MarshalAmino_map_error_witness :
    (MarshalAmino sampleStdlib sampleWithMap).2 = some ⟨"maps are not supported"⟩ :=
  MarshalAmino_map_error sampleStdlib (by intro v; cases v <;> rfl) sampleWithMap (by decide)

/-! ## Messages -/

/-- Joining with commas from an accumulator: the accumulator, then each entry
after a comma. -/
theorem intercalate_go (acc : String) (es : List String) :
    String.intercalate.go acc "," es = acc ++ commaPrefixed es := by
  induction es generalizing acc with
  | nil => simp [String.intercalate.go, commaPrefixed]
  | cons e rest ih =>
    simp only [String.intercalate.go, commaPrefixed]
    rw [ih]
    simp [String.append_assoc]

/-- Entries joined by single commas: the first entry, then each further entry
after a comma. -/
theorem intercalate_cons (e : String) (es : List String) :
    ",".intercalate (e :: es) = e ++ commaPrefixed es := by
  simp [String.intercalate, intercalate_go]

/-- The loop of marshalMessage on a bytes.Buffer, when the names and values of the
present fields marshal without error: every present field adds its entry, with
a comma before every entry but the first one written. -/
theorem marshalMessageLoop_entries (lib : Stdlib) (fields : List (Field Value))
    (hname : ∀ f ∈ fields, f.Has = true → (lib.jsonMarshal (.string f.Name)).2 = none)
    (hval : ∀ f ∈ fields, f.Has = true →
      (marshal lib bytesBuffer f.Get (some ⟨f.Name⟩) "").2 = none)
    (first : Bool) (buf : String) :
    marshalMessageLoop lib bytesBuffer fields first buf
      = (buf ++ (if first then ",".intercalate (messageEntries lib fields)
          else commaPrefixed (messageEntries lib fields)), none) := by
  induction fields generalizing first buf with
  | nil =>
    cases first <;>
      simp [marshalMessageLoop, messageEntries, commaPrefixed, String.intercalate]
  | cons f rest ih =>
    have ihr := ih (fun g hg => hname g (List.mem_cons_of_mem f hg))
      (fun g hg => hval g (List.mem_cons_of_mem f hg))
    cases hHas : f.Has with
    | false =>
      simp only [marshalMessageLoop_cons, hHas]
      rw [ihr first buf]
      simp [messageEntries, hHas]
    | true =>
      have hn := hname f (List.mem_cons_self f rest) hHas
      have hv := hval f (List.mem_cons_self f rest) hHas
      have hent : messageEntries lib (f :: rest)
          = ((lib.jsonMarshal (.string f.Name)).1 ++ ":" ++
              (marshal lib bytesBuffer f.Get (some ⟨f.Name⟩) "").1) :: messageEntries lib rest := by
        simp [messageEntries, hHas]
      simp only [marshalMessageLoop_cons, hHas, if_true]
      rw [andThen_ok _ _ (separator_ok first buf), invokeStdlibJSONMarshal_ok lib _ _ hn]
      rw [andThen_ok _ _ rfl, andThen_ok _ _ (bytesBuffer_write_ok _ ":")]
      rw [marshal_extends lib f.Get (some ⟨f.Name⟩) _, hv]
      rw [andThen_ok _ _ rfl, ihr false, hent]
      cases first
      · simp [commaPrefixed, bytesBuffer, String.append_assoc]
      · simp [intercalate_cons, commaPrefixed, bytesBuffer, String.append_assoc]

/-- C20: when the name and the value of every present field marshal without error,
marshalMessage appends to a bytes.Buffer exactly an opening brace, the entries
name:value of the present fields in the index order of the descriptor's field
list joined by single commas, and a closing brace, and reports no error;
absent fields add nothing, and a message with no present field gives the two
braces alone. -/
theorem marshalMessage_output (lib : Stdlib) (msg : List (Field Value)) (buf : String)
    (hname : ∀ f ∈ msg, f.Has = true → (lib.jsonMarshal (.string f.Name)).2 = none)
    (hval : ∀ f ∈ msg, f.Has = true →
      (marshal lib bytesBuffer f.Get (some ⟨f.Name⟩) "").2 = none) :
    marshalMessage lib bytesBuffer msg buf
        = (buf ++ "\x7b" ++ ",".intercalate
            ((msg.filter (fun f => f.Has)).map (fun f =>
              (lib.jsonMarshal (.string f.Name)).1 ++ ":" ++
                (marshal lib bytesBuffer f.Get (some ⟨f.Name⟩) "").1)) ++ "\x7d", none) ∧
    ((∀ f ∈ msg, f.Has = false) → marshalMessage lib bytesBuffer msg buf = (buf ++ "\x7b\x7d", none)) := by
  have main : marshalMessage lib bytesBuffer msg buf
      = (buf ++ "\x7b" ++ ",".intercalate (messageEntries lib msg) ++ "\x7d", none) := by
    rw [marshalMessage_eq, andThen_ok _ _ (bytesBuffer_write_ok buf "\x7b")]
    rw [marshalMessageLoop_entries lib msg hname hval true]
    rw [andThen_ok _ _ rfl, andThen_ok _ _ (bytesBuffer_write_ok _ "\x7d")]
    simp [bytesBuffer]
  refine ⟨main, ?_⟩
  intro habs
  have hnil : messageEntries lib msg = [] := by
    simp only [messageEntries, List.map_eq_nil_iff, List.filter_eq_nil_iff]
    intro f hf
    simp [habs f hf]
  rw [main, hnil]
  simp [String.intercalate, String.append_assoc]

/-- C20 at a concrete input: fields height (present), memo (absent) and tags
(present) give two entries in that order. -/
theorem marshalMessage_output_witness :
    marshalMessage sampleStdlib bytesBuffer sampleMessage ""
      = ("" ++ "\x7b" ++ ",".intercalate ["\"height\"" ++ ":" ++ "\"-5\"",
          "\"tags\"" ++ ":" ++ "[\"x\",\"7\"]"] ++ "\x7d", none) :=
  (marshalMessage_output sampleStdlib sampleMessage ""
    (by intro f _ _; rfl) (by decide)).1

/-! ## Lists -/

/-- The loop of marshalList on a bytes.Buffer, when every element marshals without
error: every element adds its encoding, with a comma before every element but
the first. -/
theorem marshalListLoop_elems (lib : Stdlib) (field : Option FieldDescriptor)
    (elems : List Value)
    (hval : ∀ v ∈ elems, (marshal lib bytesBuffer v field "").2 = none)
    (first : Bool) (buf : String) :
    marshalListLoop lib bytesBuffer field elems first buf
      = (buf ++ (if first
          then ",".intercalate (elems.map (fun v => (marshal lib bytesBuffer v field "").1))
          else commaPrefixed (elems.map (fun v => (marshal lib bytesBuffer v field "").1))),
        none) := by
  induction elems generalizing first buf with
  | nil => cases first <;> simp [marshalListLoop, commaPrefixed, String.intercalate]
  | cons v rest ih =>
    have ihr := ih (fun u hu => hval u (List.mem_cons_of_mem v hu))
    have hv := hval v (List.mem_cons_self v rest)
    simp only [marshalListLoop_cons]
    rw [andThen_ok _ _ (separator_ok first buf)]
    rw [marshal_extends lib v field _, hv]
    rw [andThen_ok _ _ rfl, ihr false]
    cases first
    · simp [commaPrefixed, bytesBuffer, String.append_assoc]
    · simp [intercalate_cons, commaPrefixed, String.append_assoc]

/-- The loop of marshalList on a bytes.Buffer, when the elements before some
element marshal without error and that element fails: the loop stops there
with that element's error, having written the encodings before it and what the
failing element wrote; the elements after it play no part. -/
theorem marshalListLoop_stops (lib : Stdlib) (field : Option FieldDescriptor)
    (pre : List Value) (v : Value) (post : List Value) (e : error)
    (hpre : ∀ u ∈ pre, (marshal lib bytesBuffer u field "").2 = none)
    (hv : (marshal lib bytesBuffer v field "").2 = some e)
    (first : Bool) (buf : String) :
    marshalListLoop lib bytesBuffer field (pre ++ v :: post) first buf
      = (buf ++ (if first
          then ",".intercalate (pre.map (fun u => (marshal lib bytesBuffer u field "").1)
            ++ [(marshal lib bytesBuffer v field "").1])
          else commaPrefixed (pre.map (fun u => (marshal lib bytesBuffer u field "").1)
            ++ [(marshal lib bytesBuffer v field "").1])),
        some e) := by
  induction pre generalizing first buf with
  | nil =>
    simp only [List.nil_append, marshalListLoop_cons]
    rw [andThen_ok _ _ (separator_ok first buf)]
    rw [marshal_extends lib v field _, hv]
    rw [andThen_err _ _ e rfl]
    cases first
    · simp [commaPrefixed, bytesBuffer, String.append_assoc]
    · simp [intercalate_cons, commaPrefixed]
  | cons u rest ih =>
    have ihr := ih (fun x hx => hpre x (List.mem_cons_of_mem u hx))
    have hu := hpre u (List.mem_cons_self u rest)
    simp only [List.cons_append, marshalListLoop_cons]
    rw [andThen_ok _ _ (separator_ok first buf)]
    rw [marshal_extends lib u field _, hu]
    rw [andThen_ok _ _ rfl, ihr false]
    cases first
    · simp [commaPrefixed, bytesBuffer, String.append_assoc]
    · simp [intercalate_cons, commaPrefixed, String.append_assoc]

/-- C21: into a bytes.Buffer, marshalList of n elements that all marshal without
error appends an opening bracket, the n element encodings in index order
joined by single commas, and a closing bracket, with no error (the two
brackets alone when n = 0); and when the elements before element i marshal
without error and element i fails, it returns the error of element i, having
written the bracket, the encodings before i and what element i wrote: the
elements after i are not marshalled and no closing bracket is written. -/
theorem marshalList_output (lib : Stdlib) (field : Option FieldDescriptor) (buf : String) :
    (∀ elems : List Value,
      (∀ v ∈ elems, (marshal lib bytesBuffer v field "").2 = none) →
      marshalList lib bytesBuffer field elems buf
        = (buf ++ "[" ++ ",".intercalate
            (elems.map (fun v => (marshal lib bytesBuffer v field "").1)) ++ "]", none)) ∧
    marshalList lib bytesBuffer field [] buf = (buf ++ "[]", none) ∧
    (∀ (pre : List Value) (v : Value) (post : List Value) (e : error),
      (∀ u ∈ pre, (marshal lib bytesBuffer u field "").2 = none) →
      (marshal lib bytesBuffer v field "").2 = some e →
      marshalList lib bytesBuffer field (pre ++ v :: post) buf
        = (buf ++ "[" ++ ",".intercalate
            (pre.map (fun u => (marshal lib bytesBuffer u field "").1)
              ++ [(marshal lib bytesBuffer v field "").1]), some e)) := by
  refine ⟨?_, ?_, ?_⟩
  · intro elems hval
    rw [marshalList_eq, andThen_ok _ _ (bytesBuffer_write_ok buf "[")]
    rw [marshalListLoop_elems lib field elems hval true]
    rw [andThen_ok _ _ rfl]
    simp [bytesBuffer]
  · rw [marshalList_eq, andThen_ok _ _ (bytesBuffer_write_ok buf "[")]
    simp [marshalListLoop, andThen, bytesBuffer, String.append_assoc]
  · intro pre v post e hpre hv
    rw [marshalList_eq, andThen_ok _ _ (bytesBuffer_write_ok buf "[")]
    rw [marshalListLoop_stops lib field pre v post e hpre hv true]
    rw [andThen_err _ _ e rfl]
    simp [bytesBuffer]

/-- C21 at concrete inputs: a list of three elements, and a list whose second
element is a map followed by a further element. -/
theorem marshalList_output_witness :
    marshalList sampleStdlib bytesBuffer none [.string "x", .uint64 7, .bool true] ""
        = ("" ++ "[" ++ ",".intercalate ["\"x\"", "\"7\"", "true"] ++ "]", none) ∧
    marshalList sampleStdlib bytesBuffer none ([.string "x"] ++ .map :: [.string "y"]) ""
        = ("" ++ "[" ++ ",".intercalate (["\"x\""] ++ [""]),
            some ⟨"maps are not supported"⟩) :=
  ⟨(marshalList_output sampleStdlib none "").1 [.string "x", .uint64 7, .bool true]
      (by decide),
   (marshalList_output sampleStdlib none "").2.2 [.string "x"] .map [.string "y"]
      ⟨"maps are not supported"⟩ (by decide) rfl⟩

/-! ## Values the switch does not list, and errors -/

/-- The whole of marshalMessage on a bytes.Buffer when the names and values of the
present fields marshal without error. -/
theorem marshalMessage_entries (lib : Stdlib) (msg : List (Field Value)) (buf : String)
    (hname : ∀ f ∈ msg, f.Has = true → (lib.jsonMarshal (.string f.Name)).2 = none)
    (hval : ∀ f ∈ msg, f.Has = true →
      (marshal lib bytesBuffer f.Get (some ⟨f.Name⟩) "").2 = none) :
    marshalMessage lib bytesBuffer msg buf
      = (buf ++ "\x7b" ++ ",".intercalate (messageEntries lib msg) ++ "\x7d", none) := by
  rw [marshalMessage_eq, andThen_ok _ _ (bytesBuffer_write_ok buf "\x7b")]
  rw [marshalMessageLoop_entries lib msg hname hval true]
  rw [andThen_ok _ _ rfl, andThen_ok _ _ (bytesBuffer_write_ok _ "\x7d")]
  simp [bytesBuffer]

/-- The entries of a message split along the field list. -/
theorem messageEntries_append (lib : Stdlib) (pre post : List (Field Value)) :
    messageEntries lib (pre ++ post) = messageEntries lib pre ++ messageEntries lib post := by
  simp [messageEntries]

/-- The loop of marshalMessage on a bytes.Buffer, when the present fields before
some present field marshal without error and the value of that field fails:
the loop stops there with the error of the value, having written the entries
before it, the name and colon of the field and what its value wrote; the
fields after it play no part. -/
theorem marshalMessageLoop_stops (lib : Stdlib) (pre : List (Field Value)) (f : Field Value)
    (post : List (Field Value)) (e : error)
    (hname : ∀ g ∈ pre, g.Has = true → (lib.jsonMarshal (.string g.Name)).2 = none)
    (hval : ∀ g ∈ pre, g.Has = true →
      (marshal lib bytesBuffer g.Get (some ⟨g.Name⟩) "").2 = none)
    (hHas : f.Has = true) (hn : (lib.jsonMarshal (.string f.Name)).2 = none)
    (hv : (marshal lib bytesBuffer f.Get (some ⟨f.Name⟩) "").2 = some e)
    (first : Bool) (buf : String) :
    marshalMessageLoop lib bytesBuffer (pre ++ f :: post) first buf
      = (buf ++ (if first
          then ",".intercalate (messageEntries lib pre ++
            [(lib.jsonMarshal (.string f.Name)).1 ++ ":" ++
              (marshal lib bytesBuffer f.Get (some ⟨f.Name⟩) "").1])
          else commaPrefixed (messageEntries lib pre ++
            [(lib.jsonMarshal (.string f.Name)).1 ++ ":" ++
              (marshal lib bytesBuffer f.Get (some ⟨f.Name⟩) "").1])),
        some e) := by
  induction pre generalizing first buf with
  | nil =>
    simp only [List.nil_append, marshalMessageLoop_cons, hHas, if_true]
    rw [andThen_ok _ _ (separator_ok first buf), invokeStdlibJSONMarshal_ok lib _ _ hn]
    rw [andThen_ok _ _ rfl, andThen_ok _ _ (bytesBuffer_write_ok _ ":")]
    rw [marshal_extends lib f.Get (some ⟨f.Name⟩) _, hv]
    rw [andThen_err _ _ e rfl]
    cases first
    · simp [messageEntries, commaPrefixed, bytesBuffer, String.append_assoc]
    · simp [messageEntries, intercalate_cons, commaPrefixed, bytesBuffer, String.append_assoc]
  | cons g rest ih =>
    have ihr := ih (fun x hx => hname x (List.mem_cons_of_mem g hx))
      (fun x hx => hval x (List.mem_cons_of_mem g hx))
    cases hg : g.Has with
    | false =>
      simp only [List.cons_append, marshalMessageLoop_cons, hg]
      rw [ihr first buf]
      simp [messageEntries, hg]
    | true =>
      have hgn := hname g (List.mem_cons_self g rest) hg
      have hgv := hval g (List.mem_cons_self g rest) hg
      have hent : messageEntries lib (g :: rest)
          = ((lib.jsonMarshal (.string g.Name)).1 ++ ":" ++
              (marshal lib bytesBuffer g.Get (some ⟨g.Name⟩) "").1) :: messageEntries lib rest := by
        simp [messageEntries, hg]
      simp only [List.cons_append, marshalMessageLoop_cons, hg, if_true]
      rw [andThen_ok _ _ (separator_ok first buf), invokeStdlibJSONMarshal_ok lib _ _ hgn]
      rw [andThen_ok _ _ rfl, andThen_ok _ _ (bytesBuffer_write_ok _ ":")]
      rw [marshal_extends lib g.Get (some ⟨g.Name⟩) _, hgv]
      rw [andThen_ok _ _ rfl, ihr false, hent]
      cases first
      · simp [commaPrefixed, bytesBuffer, String.append_assoc]
      · simp [intercalate_cons, commaPrefixed, bytesBuffer, String.append_assoc]

/-- C22: a value whose Go type has no case in the type switch of marshal is a
float32 or a float64, and for it marshal writes nothing and returns no error,
on every writer; so a message with such a present field marshals without error
(its other present fields marshalling without error) and in the output the
name and colon of that field are followed by no value. -/
theorem marshal_not_in_switch (lib : Stdlib) :
    (∀ v : Value, v.inSwitch = false →
      (∃ bits, v = .float32 bits ∨ v = .float64 bits) ∧
      ∀ (σ : Type) (w : Writer σ) (field : Option FieldDescriptor) (st : σ),
        marshal lib w v field st = (st, none)) ∧
    (∀ (pre : List (Field Value)) (f : Field Value) (post : List (Field Value)),
      f.Has = true → f.Get.inSwitch = false →
      (∀ g ∈ pre ++ f :: post, g.Has = true → (lib.jsonMarshal (.string g.Name)).2 = none) →
      (∀ g ∈ pre ++ post, g.Has = true →
        (marshal lib bytesBuffer g.Get (some ⟨g.Name⟩) "").2 = none) →
      MarshalAmino lib (pre ++ f :: post)
        = ("\x7b" ++ ",".intercalate (messageEntries lib pre ++
            [(lib.jsonMarshal (.string f.Name)).1 ++ ":"] ++ messageEntries lib post)
            ++ "\x7d", none)) := by
  have hfloat : ∀ v : Value, v.inSwitch = false →
      (∃ bits, v = .float32 bits ∨ v = .float64 bits) ∧
      ∀ (σ : Type) (w : Writer σ) (field : Option FieldDescriptor) (st : σ),
        marshal lib w v field st = (st, none) := by
    intro v hv
    cases v with
    | float32 bits => exact ⟨⟨bits, Or.inl rfl⟩, fun σ w field st => by simp [marshal]⟩
    | float64 bits => exact ⟨⟨bits, Or.inr rfl⟩, fun σ w field st => by simp [marshal]⟩
    | _ => simp [Value.inSwitch] at hv
  refine ⟨hfloat, ?_⟩
  intro pre f post hHas hsw hname hval
  have hf := (hfloat f.Get hsw).2 String bytesBuffer (some ⟨f.Name⟩) ""
  have hval' : ∀ g ∈ pre ++ f :: post, g.Has = true →
      (marshal lib bytesBuffer g.Get (some ⟨g.Name⟩) "").2 = none := by
    intro g hg hgHas
    rcases List.mem_append.mp hg with h | h
    · exact hval g (List.mem_append.mpr (Or.inl h)) hgHas
    · rcases List.mem_cons.mp h with h | h
      · subst h
        rw [hf]
      · exact hval g (List.mem_append.mpr (Or.inr h)) hgHas
  have hent : messageEntries lib (f :: post)
      = ((lib.jsonMarshal (.string f.Name)).1 ++ ":") :: messageEntries lib post := by
    simp [messageEntries, hHas, hf]
  unfold MarshalAmino
  rw [marshal_message, marshalMessage_entries lib _ "" hname hval', messageEntries_append, hent]
  simp

/-- C22 at a concrete input: the double field rate sits between two string fields;
the output has the name and colon of rate directly followed by the comma of the
next entry. -/
theorem marshal_not_in_switch_witness :
    MarshalAmino sampleStdlib sampleWithDouble
      = ("\x7b" ++ ",".intercalate (["\"a\":\"x\""] ++ ["\"rate\"" ++ ":"] ++ ["\"d\":\"y\""])
          ++ "\x7d", none) :=
  (marshal_not_in_switch sampleStdlib).2 [⟨"a", true, .string "x"⟩]
    ⟨"rate", true, .float64 4609434218613702656⟩ [⟨"d", true, .string "y"⟩] rfl rfl
    (by intro g _ _; rfl) (by decide)

/-- A message that reaches no map has no present field whose value reaches one. -/
theorem fieldsReachMap_false (fields : List (Field Value))
    (h : fieldsReachMap fields = false) :
    ∀ f ∈ fields, f.Has = true → f.Get.reachesMap = false := by
  induction fields with
  | nil => intro f hf; cases hf
  | cons g rest ih =>
    simp only [fieldsReachMap, Bool.or_eq_false_iff, Bool.and_eq_false_imp] at h
    intro f hf hHas
    rcases List.mem_cons.mp hf with hfg | hfr
    · subst hfg
      exact h.1 hHas
    · exact ih h.2 f hfr hHas

/-- C23: the bytes MarshalAmino returns are the content of the buffer at the moment
marshal returned.  They always start with the opening brace, error or not.
When the present fields before field f marshal without error and the value of
f fails, the bytes are the opening brace, the entries before f, and the name
and colon of f followed by what its value had written: an unterminated prefix
without closing brace, returned together with that error.  When no error is
returned (json.Marshal not failing), the bytes are the complete encoding. -/
theorem MarshalAmino_bytes (lib : Stdlib) (message : List (Field Value)) :
    (∃ rest, (MarshalAmino lib message).1 = "\x7b" ++ rest) ∧
    (∀ (pre : List (Field Value)) (f : Field Value) (post : List (Field Value)) (e : error),
      message = pre ++ f :: post →
      (∀ g ∈ pre, g.Has = true → (lib.jsonMarshal (.string g.Name)).2 = none) →
      (∀ g ∈ pre, g.Has = true →
        (marshal lib bytesBuffer g.Get (some ⟨g.Name⟩) "").2 = none) →
      f.Has = true → (lib.jsonMarshal (.string f.Name)).2 = none →
      (marshal lib bytesBuffer f.Get (some ⟨f.Name⟩) "").2 = some e →
      MarshalAmino lib message
        = ("\x7b" ++ ",".intercalate (messageEntries lib pre ++
            [(lib.jsonMarshal (.string f.Name)).1 ++ ":" ++
              (marshal lib bytesBuffer f.Get (some ⟨f.Name⟩) "").1]), some e)) ∧
    ((∀ v, (lib.jsonMarshal v).2 = none) → (MarshalAmino lib message).2 = none →
      MarshalAmino lib message
        = ("\x7b" ++ ",".intercalate (messageEntries lib message) ++ "\x7d", none)) := by
  refine ⟨?_, ?_, ?_⟩
  · unfold MarshalAmino
    rw [marshal_message, marshalMessage_eq, andThen_ok _ _ (bytesBuffer_write_ok "" "\x7b")]
    rw [marshalMessageLoop_extends lib message true _]
    cases hl : (marshalMessageLoop lib bytesBuffer message true "").2 with
    | some e =>
      rw [andThen_err _ _ e rfl]
      exact ⟨(marshalMessageLoop lib bytesBuffer message true "").1, by simp [bytesBuffer]⟩
    | none =>
      rw [andThen_ok _ _ rfl, andThen_ok _ _ (bytesBuffer_write_ok _ "\x7d")]
      exact ⟨(marshalMessageLoop lib bytesBuffer message true "").1 ++ "\x7d",
        by simp [bytesBuffer, String.append_assoc]⟩
  · intro pre f post e hmsg hname hval hHas hn hv
    subst hmsg
    unfold MarshalAmino
    rw [marshal_message, marshalMessage_eq, andThen_ok _ _ (bytesBuffer_write_ok "" "\x7b")]
    rw [marshalMessageLoop_stops lib pre f post e hname hval hHas hn hv true]
    rw [andThen_err _ _ e rfl]
    simp [bytesBuffer]
  · intro hjson hnone
    have herr := marshal_error lib hjson (.message message) none ""
    unfold MarshalAmino at hnone ⊢
    rw [hnone] at herr
    have hreach : fieldsReachMap message = false := by
      cases hr : fieldsReachMap message with
      | false => rfl
      | true => simp [Value.reachesMap, hr] at herr
    have hval : ∀ f ∈ message, f.Has = true →
        (marshal lib bytesBuffer f.Get (some ⟨f.Name⟩) "").2 = none := by
      intro f hf hHas
      rw [marshal_error lib hjson f.Get _ "", fieldsReachMap_false message hreach f hf hHas]
      rfl
    rw [marshal_message, marshalMessage_entries lib message "" (fun f _ _ => hjson _) hval]
    simp

/-- C23 at a concrete input: the second present field is a map; the bytes returned
with the error end after the name and colon of that field. -/
theorem MarshalAmino_bytes_witness :
    MarshalAmino sampleStdlib sampleMapField
      = ("\x7b" ++ ",".intercalate (["\"a\":\"x\""] ++ ["\"b\"" ++ ":" ++ ""]),
          some ⟨"maps are not supported"⟩) :=
  (MarshalAmino_bytes sampleStdlib sampleMapField).2.1 [⟨"a", true, .string "x"⟩]
    ⟨"b", true, .map⟩ [⟨"d", true, .string "y"⟩] ⟨"maps are not supported"⟩ rfl
    (by intro g _ _; rfl) (by decide) rfl rfl rfl

end aminojson

/-! # Theorems on the generic Message and Repeated renderers -/

namespace textual

open valuerenderer (Screen error)

/-- Lifting after nesting gives the Screen back. -/
theorem unindentBy_indentBy (k : Nat) (s : Screen) : unindentBy k (indentBy k s) = s := by
  cases s
  simp [unindentBy, indentBy]

/-- Lifting a nested rendering gives the rendering back. -/
theorem map_unindentBy_indentBy (k : Nat) (ss : List Screen) :
    (ss.map (indentBy k)).map (unindentBy k) = ss := by
  induction ss with
  | nil => rfl
  | cons s rest ih => simp [unindentBy_indentBy, ih]

/-- The rendering of the fields of a message, when not empty, starts with a header:
a Screen at indent level 0 that names one of the fields. -/
theorem formatFields_head (schema : List FieldSpec) (msg : List (Option Value))
    (hd : Screen) (tl : List Screen) (h : formatFields schema msg = .ok (hd :: tl)) :
    hd.indentLevel = 0 ∧ hd.text ∈ schema.map FieldSpec.name := by
  induction schema generalizing msg with
  | nil => simp [formatFields] at h
  | cons f fs ih =>
    cases msg with
    | nil => simp [formatFields] at h
    | cons ov vs =>
      cases ov with
      | none =>
        simp only [formatFields] at h
        obtain ⟨h0, hm⟩ := ih vs h
        exact ⟨h0, List.mem_cons_of_mem _ hm⟩
      | some v =>
        simp only [formatFields] at h
        cases hf : f.renderer.Format v with
        | error e => simp [hf] at h
        | ok ss =>
          cases hr : formatFields fs vs with
          | error e => simp [hf, hr] at h
          | ok rest =>
            simp only [hf, hr, List.cons_append, Except.ok.injEq, List.cons.injEq] at h
            obtain ⟨hhd, _⟩ := h
            subst hhd
            exact ⟨rfl, List.mem_cons_self _ _⟩

/-- The deeper Screens that follow a header are exactly the nested rendering of the
field, when what comes after is the rendering of the remaining fields. -/
theorem span_body (ss rest : List Screen) (fs : List FieldSpec) (vs : List (Option Value))
    (hr : formatFields fs vs = .ok rest) :
    (ss.map (indentBy 1) ++ rest).takeWhile (fun s => decide (0 < s.indentLevel))
        = ss.map (indentBy 1) ∧
    (ss.map (indentBy 1) ++ rest).dropWhile (fun s => decide (0 < s.indentLevel)) = rest := by
  have hpos : ∀ a ∈ ss.map (indentBy 1), (fun s : Screen => decide (0 < s.indentLevel)) a = true := by
    intro a ha
    obtain ⟨b, _, rfl⟩ := List.mem_map.mp ha
    simp [indentBy]
  rw [List.takeWhile_append_of_pos hpos, List.dropWhile_append_of_pos hpos]
  cases rest with
  | nil => simp
  | cons hd tl =>
    have h0 := (formatFields_head fs vs hd tl hr).1
    simp [h0]

/-- Parsing the rendering of the fields of a message gives the fields back, when the
field names are distinct, the message has one entry per field of the schema
and the renderer of every present field parses its own rendering of the value
back. -/
theorem parseFields_formatFields (schema : List FieldSpec) (msg : List (Option Value))
    (screens : List Screen)
    (hnames : (schema.map FieldSpec.name).Nodup)
    (hlen : msg.length = schema.length)
    (hfmt : formatFields schema msg = .ok screens)
    (hsup : ∀ f v, (f, some v) ∈ schema.zip msg →
      ∀ ss, f.renderer.Format v = .ok ss → f.renderer.Parse ss = .ok v) :
    parseFields schema screens = .ok msg := by
  induction schema generalizing msg screens with
  | nil =>
    cases msg with
    | nil =>
      simp only [formatFields, Except.ok.injEq] at hfmt
      subst hfmt
      rfl
    | cons ov vs => simp at hlen
  | cons f fs ih =>
    cases msg with
    | nil => simp at hlen
    | cons ov vs =>
      have hnd : (fs.map FieldSpec.name).Nodup := (List.nodup_cons.mp hnames).2
      have hnot : f.name ∉ fs.map FieldSpec.name := (List.nodup_cons.mp hnames).1
      have hlen' : vs.length = fs.length := by simpa using hlen
      have hsup' : ∀ g v, (g, some v) ∈ fs.zip vs →
          ∀ ss, g.renderer.Format v = .ok ss → g.renderer.Parse ss = .ok v := by
        intro g v hg
        exact hsup g v (by simp [List.zip_cons_cons, hg])
      cases ov with
      | none =>
        simp only [formatFields] at hfmt
        have hrec := ih vs screens hnd hlen' hfmt hsup'
        cases screens with
        | nil => simp [parseFields, hrec]
        | cons hd tl =>
          have hhead := formatFields_head fs vs hd tl hfmt
          have hne : hd.text ≠ f.name := by
            intro he
            exact hnot (he ▸ hhead.2)
          simp [parseFields, hne, hrec]
      | some v =>
        simp only [formatFields] at hfmt
        cases hf : f.renderer.Format v with
        | error e => simp [hf] at hfmt
        | ok ss =>
          cases hr : formatFields fs vs with
          | error e => simp [hf, hr] at hfmt
          | ok rest =>
            simp only [hf, hr, Except.ok.injEq] at hfmt
            subst hfmt
            have hparse := hsup f v (by simp [List.zip_cons_cons]) ss hf
            have hrec := ih vs rest hnd hlen' hr hsup'
            obtain ⟨htake, hdrop⟩ := span_body ss rest fs vs hr
            simp only [List.cons_append, parseFields, and_self, if_true, List.append_eq, htake,
              hdrop, map_unindentBy_indentBy, hparse, hrec]

/-- C15: Parse of the Repeated renderer fails with UnsupportedParse on every
sequence of Screens, so in particular on the rendering of any repeated value,
and returns no reconstructed list; the generic Message renderer hands that
error on when the repeated field comes first in the schema and is present. -/
theorem repeatedRenderer_parse (elem : Renderer) :
    (∀ screens : List Screen, (repeatedRenderer elem).Parse screens = .error UnsupportedParse) ∧
    (∀ (elems : List Value) (screens : List Screen),
      (repeatedRenderer elem).Format (.list elems) = .ok screens →
      (repeatedRenderer elem).Parse screens = .error UnsupportedParse ∧
      ∀ v : Value, (repeatedRenderer elem).Parse screens ≠ .ok v) ∧
    (∀ (name : String) (fs : List FieldSpec) (elems : List Value) (vs : List (Option Value))
      (screens : List Screen),
      (messageRenderer (⟨name, repeatedRenderer elem⟩ :: fs)).Format
          (.msg (some (.list elems) :: vs)) = .ok screens →
      (messageRenderer (⟨name, repeatedRenderer elem⟩ :: fs)).Parse screens
        = .error UnsupportedParse) := by
  refine ⟨fun _ => rfl, ?_, ?_⟩
  · intro elems screens _
    refine ⟨rfl, ?_⟩
    intro v h
    cases h
  · intro name fs elems vs screens hfmt
    simp only [messageRenderer, formatFields] at hfmt
    cases hf : (repeatedRenderer elem).Format (.list elems) with
    | error e => simp [hf] at hfmt
    | ok ss =>
      cases hr : formatFields fs vs with
      | error e => simp [hf, hr] at hfmt
      | ok rest =>
        simp only [hf, hr, Except.ok.injEq] at hfmt
        subst hfmt
        simp [messageRenderer, parseFields, repeatedRenderer]

/-- C15 at a concrete input: the rendering of a repeated field of three strings. -/
theorem repeatedRenderer_parse_witness :
    (repeatedRenderer stringRenderer).Format (.list [.str "a", .str "b", .str "c"])
        = .ok [⟨"3 item(s)", 0, false⟩, ⟨"1", 1, false⟩, ⟨"a", 1, false⟩, ⟨"2", 1, false⟩,
            ⟨"b", 1, false⟩, ⟨"3", 1, false⟩, ⟨"c", 1, false⟩] ∧
    (repeatedRenderer stringRenderer).Parse
        [⟨"3 item(s)", 0, false⟩, ⟨"1", 1, false⟩, ⟨"a", 1, false⟩, ⟨"2", 1, false⟩,
          ⟨"b", 1, false⟩, ⟨"3", 1, false⟩, ⟨"c", 1, false⟩]
      = .error UnsupportedParse :=
  ⟨rfl, ((repeatedRenderer_parse stringRenderer).2.1 [.str "a", .str "b", .str "c"] _ rfl).1⟩

end textual
